import Mathlib

/-!
Verification of the AINews ingestion-to-digest pipeline.

Shallow embedding of the pure computational core of the repository:
taxonomy constants (`src/ai_digest/taxonomy.py`), severity assignment and
impact scoring (`src/ai_digest/pipeline/ranking.py`), title-similarity and
soft-dedup clustering (`src/ai_digest/pipeline/dedupe.py`, including the
`difflib.SequenceMatcher` ratio it calls), section allocation
(`src/ai_digest/digest/sections.py`), digest-time noise filtering and
duplicate collapse (`src/ai_digest/digest/generator.py`), the candidate
content hash (`src/ai_digest/connectors/base.py`, including SHA-256), and
the GitHub releases connector control flow
(`src/ai_digest/connectors/github_releases.py`).

Python floats are modelled as rationals (ℚ); the factor values appearing in
the scoring formula are small decimal constants, exactly representable both
as doubles and as rationals, so the arithmetic agrees except at exact
round-half ties, which the theorems below never hit.
-/

namespace AINews

/-! ### taxonomy.py constants -/

/-- The 30-category taxonomy, `CATEGORIES` in taxonomy.py. -/
def CATEGORIES : List (Nat × String) :=
  [ (1, "New foundation model release"),
    (2, "Model upgrade (quality/latency/context)"),
    (3, "New modality (vision/audio/video/3D)"),
    (4, "Fine-tuning/customization updates"),
    (5, "Inference & serving (speed/runtimes)"),
    (6, "Pricing & billing changes"),
    (7, "Rate limits/quotas/tiers"),
    (8, "Deprecations/breaking changes"),
    (9, "SDK releases/updates"),
    (10, "API changes (endpoints/auth/schemas)"),
    (11, "Agents frameworks/orchestration"),
    (12, "Tool-use/function calling/integrations"),
    (13, "RAG/retrieval tooling"),
    (14, "Embeddings & reranking"),
    (15, "Evaluation/benchmarks/evals"),
    (16, "Datasets (new/updated/licensing)"),
    (17, "Safety/alignment features"),
    (18, "Policy/compliance/governance"),
    (19, "Security incidents/vuln disclosures"),
    (20, "Privacy changes"),
    (21, "Open-source model/tool releases"),
    (22, "New developer products (dashboards/playgrounds)"),
    (23, "Enterprise features (SSO/RBAC/audit logs)"),
    (24, "Edge/on-device AI"),
    (25, "Hardware accelerators/drivers"),
    (26, "Training infrastructure/distributed systems"),
    (27, "LLMOps/monitoring/tracing"),
    (28, "App launches (consumer/prosumer)"),
    (29, "Funding/M&A/partnerships"),
    (30, "Reliability/outages/status updates") ]

/-- `SECTION_DEVELOPER` in taxonomy.py. -/
def SECTION_DEVELOPER : List String :=
  [ "Deprecations/breaking changes",
    "SDK releases/updates",
    "API changes (endpoints/auth/schemas)",
    "Agents frameworks/orchestration",
    "Tool-use/function calling/integrations" ]

/-- `SECTION_MODELS` in taxonomy.py. -/
def SECTION_MODELS : List String :=
  [ "New foundation model release",
    "Model upgrade (quality/latency/context)",
    "New modality (vision/audio/video/3D)",
    "Fine-tuning/customization updates",
    "Inference & serving (speed/runtimes)",
    "Embeddings & reranking",
    "Evaluation/benchmarks/evals",
    "Open-source model/tool releases" ]

/-- `SECTION_PRICING` in taxonomy.py. -/
def SECTION_PRICING : List String :=
  [ "Pricing & billing changes",
    "Rate limits/quotas/tiers" ]

/-- `SECTION_INCIDENTS` in taxonomy.py. -/
def SECTION_INCIDENTS : List String :=
  [ "Security incidents/vuln disclosures",
    "Reliability/outages/status updates" ]

/-- `ALWAYS_HIGH_CATEGORIES` in taxonomy.py: category id 1. -/
def ALWAYS_HIGH_CATEGORIES : List Nat := [1]

/-- `TRUST_SCORES.get(tier, ...)` with the caller's default 0.2
    (ranking.py line `TRUST_SCORES.get(event.trust_tier, 0.2)`). -/
def trustScore (tier : Int) : ℚ :=
  if tier = 1 then 1.0
  else if tier = 2 then 0.7
  else if tier = 3 then 0.4
  else if tier = 4 then 0.2
  else 0.2

/-- `SEVERITY_SCORES.get(severity, 0.15)` from ranking.py / taxonomy.py. -/
def severityScore (severity : String) : ℚ :=
  if severity = "HIGH" then 1.0
  else if severity = "MEDIUM" then 0.5
  else if severity = "LOW" then 0.15
  else 0.15

/-! ### ranking.py: _compute_impact_score -/

/-- Python `round(q, 4)` modelled on ℚ: round to 4 decimal places.
    (Python rounds half-to-even on floats; the two agree away from exact
    half ties, which none of the scores below attain.) -/
def roundTo4 (q : ℚ) : ℚ := (round (q * 10000) : ℚ) / 10000

/-- `_compute_impact_score` from pipeline/ranking.py.

    The recency factor `exp(-RECENCY_LAMBDA * hours_old)` with
    `hours_old ≥ 0` is a transcendental value in (0, 1]; it is taken here
    as an explicit parameter `recency` so the function stays executable.
    `user_match = 0.5`, `breadth = 1/3`, `novelty = 1.0` and
    `spam_penalty = 0.0` are the Phase-1 constants from the source. -/
def computeImpactScore (trustTier : Int) (severity : String) (recency : ℚ) : ℚ :=
  let trust := trustScore trustTier
  let sev := severityScore severity
  let userMatch : ℚ := 0.5
  let breadth : ℚ := 1.0 / 3.0
  let novelty : ℚ := 1.0
  let spamPenalty : ℚ := 0.0
  let score :=
    0.20 * trust + 0.25 * sev + 0.15 * userMatch + 0.15 * recency
      + 0.10 * breadth + 0.10 * novelty - 0.05 * spamPenalty
  roundTo4 (min (max score 0.0) 1.0)

/-! ### ranking.py: _assign_severity -/

/-- Substring test used to model Python's `kw in title_lower`. -/
def strContains (s pat : String) : Bool := decide (pat.data <:+: s.data)

/-- Python `str.lower()` (`String.toLower` unfolded to a character-list
    map, so that terms evaluate inside the kernel; the titles involved are
    ASCII, where Python and Lean lower-casing agree). -/
def lowerStr (s : String) : String := ⟨s.data.map Char.toLower⟩

/-- The HIGH-signal keyword list from `_assign_severity`. -/
def highKeywords : List String :=
  [ "outage", "breach", "security incident", "deprecat",
    "end of life", "major release", "breaking" ]

/-- The MEDIUM-signal keyword list from `_assign_severity`. -/
def mediumKeywords : List String :=
  [ "new feature", "update", "release", "upgrade",
    "support", "launch", "available", "introduces" ]

/-- `_assign_severity` from pipeline/ranking.py.  The event's fields that
    the function reads are passed explicitly: its category-name set, the
    breaking-change flag, the title and the trust tier. -/
def assignSeverity (categories : List String) (breakingChange : Bool)
    (title : String) (trustTier : Int) : String :=
  -- cat_ids = ids of CATEGORIES whose name is in the event's category set
  let catIds := (CATEGORIES.filter (fun p => p.2 ∈ categories)).map (·.1)
  if catIds.any (· ∈ ALWAYS_HIGH_CATEGORIES) then "HIGH"
  else if breakingChange then "HIGH"
  else
    let titleLower := lowerStr title
    if highKeywords.any (fun kw => strContains titleLower kw) then "HIGH"
    else if mediumKeywords.any (fun kw => strContains titleLower kw) then "MEDIUM"
    else if trustTier = 1 &&
        (categories.any (fun c =>
          c = "SDK releases/updates" || c = "API changes (endpoints/auth/schemas)"))
      then "MEDIUM"
    else "LOW"

/-! ### digest/generator.py: noise filter helpers -/

/-- The character class of Python's regex `\s` on ASCII text (the class
    `str.strip()` / `str.split()` use as well). -/
def pyIsSpace (c : Char) : Bool :=
  c = ' ' || c = '\t' || c = '\n' || c = '\r' || c = '\x0b' || c = '\x0c'

/-- Python `str.strip()` on a character list. -/
def pyStrip (s : List Char) : List Char :=
  ((s.dropWhile pyIsSpace).reverse.dropWhile pyIsSpace).reverse

/-- Core of `re.sub(r"\s+", " ", s)`: collapse every run of whitespace to a
    single space.  `prevWs` records whether the previous character was part
    of a whitespace run already emitted. -/
def squeezeWs (prevWs : Bool) : List Char → List Char
  | [] => []
  | c :: rest =>
    if pyIsSpace c then
      if prevWs then squeezeWs true rest else ' ' :: squeezeWs true rest
    else c :: squeezeWs false rest

/-- `_normalize_title` from digest/generator.py:
    `re.sub(r"\s+", " ", title.strip().lower())`. -/
def normalizeTitle (title : String) : String :=
  ⟨squeezeWs false (pyStrip (lowerStr title).data)⟩

/-- Python `str.split()` (split on whitespace runs, dropping empties). -/
def pySplitWs : List Char → List (List Char)
  | [] => []
  | c :: rest =>
    if pyIsSpace c then pySplitWs rest
    else
      match pySplitWs rest with
      | [] => [[c]]
      | w :: ws =>
        match rest with
        | [] => [[c]]
        | d :: _ => if pyIsSpace d then [c] :: w :: ws else (c :: w) :: ws

/-- `_ALPHA_RE.search(word)`: the word contains two consecutive ASCII
    letters (`[A-Za-z]{2,}`). -/
def hasAlpha2 : List Char → Bool
  | a :: b :: rest => (a.isAlpha && b.isAlpha) || hasAlpha2 (b :: rest)
  | _ => false

/-- `_is_readable_title` from digest/generator.py. -/
def isReadableTitle (title : String) : Bool :=
  let words := pySplitWs title.data
  if words.length = 1 then
    let word := words.headI
    hasAlpha2 word && word.length ≥ 4
  else if words.length < 2 then false
  else
    let alphaWords := (words.filter hasAlpha2).length
    decide ((alphaWords : ℚ) / (words.length : ℚ) > 0.3)

/-- `re.fullmatch(r"[\d,\s]+", text.strip())`. -/
def digitsCommasWs (s : List Char) : Bool :=
  !s.isEmpty && s.all (fun c => c.isDigit || c = ',' || pyIsSpace c)

/-- `_looks_like_star_count` from digest/generator.py. -/
def looksLikeStarCount (text : String) : Bool :=
  strContains (lowerStr text) "stars today" || digitsCommasWs (pyStrip text.data)

/-- `_NOISE_TITLES` from digest/generator.py. -/
def NOISE_TITLES : List String :=
  [ "community update", "community updates", "update", "updates",
    "announcement", "announcements" ]

/-- `_is_noise_event` from digest/generator.py, as a function of the two
    event fields it reads (`event.title or ""` and `event.trust_tier`). -/
def isNoiseEvent (title : String) (trustTier : Int) : Bool :=
  let norm := normalizeTitle title
  if looksLikeStarCount title then true
  else if trustTier ≥ 4 then
    if norm ∈ NOISE_TITLES then true
    else if !isReadableTitle title then true
    else false
  else false

/-- The generator's noise-filter application
    (`events = [e for e in events if not _is_noise_event(e)]`). -/
def noiseFilter (events : List (String × Int)) : List (String × Int) :=
  events.filter (fun e => !isNoiseEvent e.1 e.2)

/-! ### digest/generator.py: _dedupe_events -/

/-- The event fields `_dedupe_events` reads: optional cluster reference
    (UUIDs modelled as `Nat`), optional company slug, optional product
    line, optional title.  The remaining event fields do not influence the
    function. -/
structure DEvent where
  clusterId : Option Nat
  companySlug : Option String
  productLine : Option String
  title : Option String
  deriving DecidableEq

/-- The dedup key of `_dedupe_events`:
    `((slug or "").lower(), (product_line or "").lower(),
      _normalize_title(title or ""))`. -/
def dedupeKey (e : DEvent) : String × String × String :=
  ( lowerStr (e.companySlug.getD ""),
    lowerStr (e.productLine.getD ""),
    normalizeTitle (e.title.getD "") )

/-- The loop of `_dedupe_events`: `seenClusters` and `seenKeys` are the
    accumulated `seen_clusters` / `seen_keys` sets. -/
def dedupeGo (seenClusters : List Nat) (seenKeys : List (String × String × String)) :
    List DEvent → List DEvent
  | [] => []
  | ev :: rest =>
    match ev.clusterId with
    | some c =>
      if c ∈ seenClusters then dedupeGo seenClusters seenKeys rest
      else if dedupeKey ev ∈ seenKeys then dedupeGo seenClusters seenKeys rest
      else ev :: dedupeGo (c :: seenClusters) (dedupeKey ev :: seenKeys) rest
    | none =>
      if dedupeKey ev ∈ seenKeys then dedupeGo seenClusters seenKeys rest
      else ev :: dedupeGo seenClusters (dedupeKey ev :: seenKeys) rest

/-- `_dedupe_events` from digest/generator.py (the `if not events` early
    return coincides with the recursion's base case). -/
def dedupeEvents (events : List DEvent) : List DEvent :=
  dedupeGo [] [] events

/-! ### digest/sections.py: allocate_sections -/

/-- The `UpdateEvent` fields `allocate_sections` reads: the event id
    (UUIDs modelled as `Nat`), the trust tier, the category-name set and
    the impact score. -/
structure AEvent where
  eventId : Nat
  trustTier : Int
  categories : List String
  impactScore : ℚ
  deriving DecidableEq

/-- `SECTION_QUOTAS` from taxonomy.py. -/
def QUOTA_TOP5 : Nat := 5
/-- `SECTION_QUOTAS["developer"]`. -/
def QUOTA_DEVELOPER : Nat := 8
/-- `SECTION_QUOTAS["models"]`. -/
def QUOTA_MODELS : Nat := 8
/-- `SECTION_QUOTAS["pricing"]`. -/
def QUOTA_PRICING : Nat := 5
/-- `SECTION_QUOTAS["incidents"]`. -/
def QUOTA_INCIDENTS : Nat := 5
/-- `SECTION_QUOTAS["radar"]`. -/
def QUOTA_RADAR : Nat := 3

/-- The mutable state of the routing loop in `allocate_sections`: the five
    quota-bounded sections being filled plus the `assigned_ids` set
    (modelled as a list of event ids). -/
structure AllocState where
  developer : List AEvent
  models : List AEvent
  pricing : List AEvent
  incidents : List AEvent
  radar : List AEvent
  assigned : List Nat
  deriving DecidableEq

/-- `cats & SECTION_X`: the event's category set intersects a section's
    category set. -/
def catsMeet (cats sectionCats : List String) : Bool :=
  cats.any (· ∈ sectionCats)

/-- One iteration of the `for event in remaining` loop of
    `allocate_sections`. -/
def route (s : AllocState) (e : AEvent) : AllocState :=
  if e.trustTier = 4 && s.radar.length < QUOTA_RADAR then
    { s with radar := s.radar ++ [e], assigned := s.assigned ++ [e.eventId] }
  else if catsMeet e.categories SECTION_DEVELOPER && s.developer.length < QUOTA_DEVELOPER then
    { s with developer := s.developer ++ [e], assigned := s.assigned ++ [e.eventId] }
  else if catsMeet e.categories SECTION_MODELS && s.models.length < QUOTA_MODELS then
    { s with models := s.models ++ [e], assigned := s.assigned ++ [e.eventId] }
  else if catsMeet e.categories SECTION_PRICING && s.pricing.length < QUOTA_PRICING then
    { s with pricing := s.pricing ++ [e], assigned := s.assigned ++ [e.eventId] }
  else if catsMeet e.categories SECTION_INCIDENTS && s.incidents.length < QUOTA_INCIDENTS then
    { s with incidents := s.incidents ++ [e], assigned := s.assigned ++ [e.eventId] }
  else s

/-- The `DigestSections` dataclass from digest/sections.py (the seven
    per-section event lists; the `digest_section` label write-back and the
    serialisation helpers do not change the partition itself). -/
structure DigestSections where
  top5 : List AEvent
  developer : List AEvent
  models : List AEvent
  pricing : List AEvent
  incidents : List AEvent
  radar : List AEvent
  everythingElse : List AEvent
  deriving DecidableEq

/-- `allocate_sections` from digest/sections.py. -/
def allocateSections (events : List AEvent) : DigestSections :=
  if events.isEmpty then ⟨[], [], [], [], [], [], []⟩
  else
    let top5 := events.take QUOTA_TOP5
    let assigned0 := top5.map (·.eventId)
    let remaining := events.filter (fun e => e.eventId ∉ assigned0)
    let st := remaining.foldl route ⟨[], [], [], [], [], assigned0⟩
    let everythingElse := events.filter (fun e => e.eventId ∉ st.assigned)
    ⟨top5, st.developer, st.models, st.pricing, st.incidents, st.radar, everythingElse⟩

/-- The events of the five quota-bounded routing sections, in section
    order (used to state the partition property of `allocate_sections`). -/
def AllocState.bag (s : AllocState) : List AEvent :=
  s.developer ++ s.models ++ s.pricing ++ s.incidents ++ s.radar

/-- All seven sections of a `DigestSections`, concatenated in declaration
    order. -/
def DigestSections.allEvents (d : DigestSections) : List AEvent :=
  d.top5 ++ d.developer ++ d.models ++ d.pricing ++ d.incidents ++ d.radar
    ++ d.everythingElse

/-- The quota invariant maintained by the routing loop. -/
def quotasOK (s : AllocState) : Prop :=
  s.developer.length ≤ QUOTA_DEVELOPER ∧ s.models.length ≤ QUOTA_MODELS
    ∧ s.pricing.length ≤ QUOTA_PRICING ∧ s.incidents.length ≤ QUOTA_INCIDENTS
    ∧ s.radar.length ≤ QUOTA_RADAR

/-! ### difflib.SequenceMatcher, as called by pipeline/dedupe.py

`_title_similarity` computes `SequenceMatcher(None, a, b).ratio()` on
case-folded, stripped titles.  With `isjunk=None` and titles far below the
200-character autojunk threshold, no element is ever junk, so `ratio` is:
the total size of the matching blocks found by recursively taking the
longest matching block (ties resolved to the earliest position in `a`,
then in `b`) and recursing on the regions to its left and right, scaled by
`2/(len(a)+len(b))` (and defined as 1.0 when both strings are empty).
`find_longest_match`'s dynamic program locates, for each end position, the
longest common suffix; the block it reports is exactly the longest common
substring with minimal start in `a`, then minimal start in `b`, which is
how `findLongestMatch` below computes it. -/

/-- Length of the longest common prefix of two character lists. -/
def matchLen : List Char → List Char → Nat
  | a :: as, b :: bs => if a = b then matchLen as bs + 1 else 0
  | _, _ => 0

/-- A matching block: start in `a`, start in `b`, size. -/
structure MatchBlock where
  i : Nat
  j : Nat
  size : Nat
  deriving DecidableEq

/-- Keep the incumbent unless the candidate is strictly larger — difflib
    updates its best block only on `k > bestsize`, so among maximal blocks
    the first one in scan order (smallest `i`, then smallest `j`) wins. -/
def pickBest (best c : MatchBlock) : MatchBlock :=
  if c.size > best.size then c else best

/-- All candidate blocks `(i, j, run length starting at (i, j))` in the
    scan order of `find_longest_match` (i ascending, then j ascending). -/
def blockCands (a b : List Char) : List MatchBlock :=
  (List.range a.length).flatMap fun i =>
    (List.range b.length).map fun j =>
      ⟨i, j, matchLen (a.drop i) (b.drop j)⟩

/-- `find_longest_match` of difflib over the full ranges, no junk. -/
def findLongestMatch (a b : List Char) : MatchBlock :=
  (blockCands a b).foldl pickBest ⟨0, 0, 0⟩

/-- Total size of all matching blocks (`sum(size for block in
    get_matching_blocks())`), computed by the standard recursion: take the
    longest block, recurse left and right of it.  `fuel` is a structural
    bound on the recursion depth; since every recursive call strictly
    shrinks the `a`-side region (the block has size ≥ 1), any
    `fuel > a.length` computes the exact value — see
    `matchTotalGo_fuel_irrel`. -/
def matchTotalGo : Nat → List Char → List Char → Nat
  | 0, _, _ => 0
  | fuel + 1, a, b =>
    let m := findLongestMatch a b
    if m.size = 0 then 0
    else
      m.size + matchTotalGo fuel (a.take m.i) (b.take m.j)
        + matchTotalGo fuel (a.drop (m.i + m.size)) (b.drop (m.j + m.size))

/-- Total matched characters between `a` and `b`. -/
def matchTotal (a b : List Char) : Nat := matchTotalGo (a.length + 1) a b

/-- difflib's `_calculate_ratio`: `2.0 * matches / length` with the
    `length == 0` case defined as 1.0. -/
def smRatio (a b : List Char) : ℚ :=
  if a.length + b.length = 0 then 1.0
  else 2 * (matchTotal a b : ℚ) / ((a.length + b.length : Nat) : ℚ)

/-- Python `s.strip()` on strings. -/
def pyStripStr (s : String) : String := ⟨pyStrip s.data⟩

/-- `_title_similarity` from pipeline/dedupe.py. -/
def titleSimilarity (a b : String) : ℚ :=
  let aLower := pyStripStr (lowerStr a)
  let bLower := pyStripStr (lowerStr b)
  if aLower.data.isEmpty || bLower.data.isEmpty then 0.0
  else smRatio aLower.data bLower.data

/-! ### pipeline/dedupe.py: soft_dedupe_and_cluster -/

/-- `SIMILARITY_THRESHOLD` from pipeline/dedupe.py. -/
def SIMILARITY_THRESHOLD : ℚ := 0.85

/-- The cluster-building double loop of `soft_dedupe_and_cluster` over the
    event titles: for each index `i` not yet assigned, gather every later
    unassigned index `j` with title similarity ≥ threshold; groups of size
    ≥ 2 become clusters (singletons stay unclustered, and their seed is
    still marked assigned). -/
def clusterGo (titles : List String) : List Nat → List Nat → List (List Nat)
  | [], _ => []
  | i :: rest, assigned =>
    if i ∈ assigned then clusterGo titles rest assigned
    else
      let gathered := rest.filter fun j =>
        decide (j ∉ assigned) &&
          decide (SIMILARITY_THRESHOLD ≤
            titleSimilarity (titles.getD i "") (titles.getD j ""))
      let cluster := i :: gathered
      if cluster.length > 1 then
        cluster :: clusterGo titles rest (assigned ++ cluster)
      else clusterGo titles rest (assigned ++ cluster)

/-- The list of index clusters built by `soft_dedupe_and_cluster`. -/
def clusterGroups (titles : List String) : List (List Nat) :=
  clusterGo titles (List.range titles.length) []

/-- The cluster reference `soft_dedupe_and_cluster` leaves on the event at
    index `k`: each size-≥2 group receives a fresh `Cluster` row (fresh
    UUIDs are modelled by the group's seed index, which determines the
    group uniquely); members of no group keep `cluster_id = None`. -/
def clusterRef (titles : List String) (k : Nat) : Option Nat :=
  ((clusterGroups titles).find? (fun g => g.contains k)).map (·.headI)

/-! ### connectors/base.py: RawItemData.content_hash

`content_hash` is `hashlib.sha256((url + (content_text or title or
"")).encode()).hexdigest()`.  SHA-256 (FIPS 180-4) is embedded below over
byte lists, with 32-bit words as `Nat` reduced mod 2^32. -/

/-- 2^32. -/
def w32 : Nat := 4294967296

/-- Addition mod 2^32. -/
def add32 (x y : Nat) : Nat := (x + y) % w32

/-- Rotate a 32-bit word right by `n` positions. -/
def rotr32 (n x : Nat) : Nat := ((x >>> n) ||| (x <<< (32 - n))) % w32

/-- SHA-256 `Ch(e,f,g)`. -/
def shaCh (e f g : Nat) : Nat := (e &&& f) ^^^ ((e ^^^ (w32 - 1)) &&& g)

/-- SHA-256 `Maj(a,b,c)`. -/
def shaMaj (a b c : Nat) : Nat := ((a &&& b) ^^^ (a &&& c)) ^^^ (b &&& c)

/-- SHA-256 `Σ0`. -/
def bigSigma0 (x : Nat) : Nat := rotr32 2 x ^^^ rotr32 13 x ^^^ rotr32 22 x

/-- SHA-256 `Σ1`. -/
def bigSigma1 (x : Nat) : Nat := rotr32 6 x ^^^ rotr32 11 x ^^^ rotr32 25 x

/-- SHA-256 `σ0`. -/
def smallSigma0 (x : Nat) : Nat := rotr32 7 x ^^^ rotr32 18 x ^^^ (x >>> 3)

/-- SHA-256 `σ1`. -/
def smallSigma1 (x : Nat) : Nat := rotr32 17 x ^^^ rotr32 19 x ^^^ (x >>> 10)

/-- The 64 SHA-256 round constants (fractional parts of the cube roots of
    the first 64 primes, FIPS 180-4 §4.2.2), written in decimal. -/
def shaK : List Nat :=
  [ 1116352408, 1899447441, 3049323471, 3921009573, 961987163,
    1508970993, 2453635748, 2870763221, 3624381080, 310598401,
    607225278, 1426881987, 1925078388, 2162078206, 2614888103,
    3248222580, 3835390401, 4022224774, 264347078, 604807628,
    770255983, 1249150122, 1555081692, 1996064986, 2554220882,
    2821834349, 2952996808, 3210313671, 3336571891, 3584528711,
    113926993, 338241895, 666307205, 773529912, 1294757372,
    1396182291, 1695183700, 1986661051, 2177026350, 2456956037,
    2730485921, 2820302411, 3259730800, 3345764771, 3516065817,
    3600352804, 4094571909, 275423344, 430227734, 506948616,
    659060556, 883997877, 958139571, 1322822218, 1537002063,
    1747873779, 1955562222, 2024104815, 2227730452, 2361852424,
    2428436474, 2756734187, 3204031479, 3329325298 ]

/-- The SHA-256 initial hash state (fractional parts of the square roots
    of the first 8 primes), written in decimal. -/
def shaH0 : List Nat :=
  [ 1779033703, 3144134277, 1013904242, 2773480762,
    1359893119, 2600822924, 528734635, 1541459225 ]

/-- `n` bytes of `x`, big-endian. -/
def toBytesBE : Nat → Nat → List Nat
  | 0, _ => []
  | n + 1, x => toBytesBE n (x / 256) ++ [x % 256]

/-- SHA-256 message padding (FIPS 180-4 §5.1.1): one `0x80` byte, then
    zero bytes, then the bit length as eight big-endian bytes, filling the
    message out to a 64-byte-block boundary. -/
def sha256Pad (msg : List Nat) : List Nat :=
  let l := msg.length
  let k := (55 + 64 - l % 64) % 64
  msg ++ [0x80] ++ List.replicate k 0 ++ toBytesBE 8 (8 * l)

/-- Group bytes into big-endian 32-bit words. -/
def wordsOfBytes : List Nat → List Nat
  | b0 :: b1 :: b2 :: b3 :: rest =>
    (((b0 * 256 + b1) * 256 + b2) * 256 + b3) :: wordsOfBytes rest
  | _ => []

/-- One step of the message-schedule extension. -/
def scheduleStep (ws : List Nat) : List Nat :=
  let n := ws.length
  ws ++ [(ws.getD (n - 16) 0 + smallSigma0 (ws.getD (n - 15) 0)
          + ws.getD (n - 7) 0 + smallSigma1 (ws.getD (n - 2) 0)) % w32]

/-- Iterate the schedule extension. -/
def buildSchedule : Nat → List Nat → List Nat
  | 0, ws => ws
  | n + 1, ws => buildSchedule n (scheduleStep ws)

/-- One SHA-256 compression round on the state `[a,b,c,d,e,f,g,h]` with a
    round constant and schedule word. -/
def roundStep (st : List Nat) (kw : Nat × Nat) : List Nat :=
  match st with
  | [a, b, c, d, e, f, g, h] =>
    let t1 := (h + bigSigma1 e + shaCh e f g + kw.1 + kw.2) % w32
    let t2 := (bigSigma0 a + shaMaj a b c) % w32
    [(t1 + t2) % w32, a, b, c, (d + t1) % w32, e, f, g]
  | _ => st

/-- Compress one 16-word block into the hash state. -/
def sha256Compress (h : List Nat) (block : List Nat) : List Nat :=
  let ws := buildSchedule 48 block
  let st := (shaK.zip ws).foldl roundStep h
  List.zipWith add32 h st

/-- Fold the compression over all 16-word blocks. -/
def sha256Blocks (h : List Nat) : List Nat → List Nat
  | w0 :: w1 :: w2 :: w3 :: w4 :: w5 :: w6 :: w7 ::
    w8 :: w9 :: w10 :: w11 :: w12 :: w13 :: w14 :: w15 :: rest =>
    sha256Blocks
      (sha256Compress h [w0, w1, w2, w3, w4, w5, w6, w7,
                         w8, w9, w10, w11, w12, w13, w14, w15]) rest
  | _ => h

/-- Lower-case hex digits. -/
def hexChars : List Char := "0123456789abcdef".data

/-- A 32-bit word as 8 hex characters. -/
def wordHex (x : Nat) : List Char :=
  (List.range 8).map fun i => hexChars.getD ((x >>> (28 - 4 * i)) &&& 15) '0'

/-- `hashlib.sha256(bytes).hexdigest()`. -/
def sha256Hex (msg : List Nat) : String :=
  ⟨(sha256Blocks shaH0 (wordsOfBytes (sha256Pad msg))).flatMap wordHex⟩

/-- UTF-8 encoding of one character (`str.encode()`). -/
def charUtf8 (c : Char) : List Nat :=
  let n := c.toNat
  if n < 0x80 then [n]
  else if n < 0x800 then
    [0xc0 ||| (n >>> 6), 0x80 ||| (n &&& 0x3f)]
  else if n < 0x10000 then
    [0xe0 ||| (n >>> 12), 0x80 ||| ((n >>> 6) &&& 0x3f), 0x80 ||| (n &&& 0x3f)]
  else
    [0xf0 ||| (n >>> 18), 0x80 ||| ((n >>> 12) &&& 0x3f),
      0x80 ||| ((n >>> 6) &&& 0x3f), 0x80 ||| (n &&& 0x3f)]

/-- UTF-8 bytes of a string. -/
def utf8Bytes (s : String) : List Nat := s.data.flatMap charUtf8

/-- The text the hash uses: `self.content_text or self.title or ""` —
    Python `or` falls through on `None` *and* on the empty string. -/
def bestText (contentText title : Option String) : String :=
  if contentText.getD "" ≠ "" then contentText.getD ""
  else if title.getD "" ≠ "" then title.getD ""
  else ""

/-- The hashed payload of `RawItemData.content_hash`:
    `self.url + (self.content_text or self.title or "")`. -/
def contentHashPayload (url : String) (contentText title : Option String) : String :=
  url ++ bestText contentText title

/-- `RawItemData.content_hash` from connectors/base.py. -/
def contentHash (url : String) (contentText title : Option String) : String :=
  sha256Hex (utf8Bytes (contentHashPayload url contentText title))

/-! ### connectors/github_releases.py: GitHubReleasesConnector.fetch

The connector's network interaction is modelled by the outcome of the one
`http_client.get` call it makes; everything after that call is pure
control flow, reproduced below.  `datetime.fromisoformat` is wrapped in
`try/except ValueError` in the source, so timestamp parsing is total and
the publish timestamp is carried as its raw string here. -/

/-- A release object, as far as `fetch` reads it (`rel.get(...)` fields;
    `none` = key absent). -/
structure GhRelease where
  relId : Option Nat
  htmlUrl : Option String
  relName : Option String
  tagName : Option String
  body : Option String
  publishedAt : Option String
  createdAt : Option String
  deriving DecidableEq

/-- The JSON value of a 2xx response body: a list of releases, or valid
    JSON of any other shape. -/
inductive GhJson where
  | releaseList (releases : List GhRelease)
  | other
  deriving DecidableEq

/-- Outcome of `http_client.get`: a raised `httpx.HTTPError`, or a
    response with a status code and a body (`none` = a body
    `resp.json()` cannot parse). -/
inductive HttpOutcome where
  | transportError
  | response (status : Nat) (body : Option GhJson)
  deriving DecidableEq

/-- Result of calling a Python function: a normal return, or an uncaught
    exception propagating to the caller. -/
inductive PyResult (α : Type) where
  | ok (val : α)
  | exc (excName : String)
  deriving DecidableEq

/-- The candidate-item record built by the connector (the fields of
    `RawItemData` that `fetch` fills, minus the metadata bag). -/
structure FetchedItem where
  externalId : String
  url : String
  title : String
  contentText : String
  publishedRaw : Option String
  deriving DecidableEq

/-- Python `url.rstrip("/")`. -/
def rstripSlash (s : String) : String :=
  ⟨(s.data.reverse.dropWhile (· = '/')).reverse⟩

/-- Python `s.split("/releases")[0]`: the prefix before the first
    occurrence of the pattern (the whole string when absent). -/
def takeBeforePat (pat : List Char) : List Char → List Char
  | [] => []
  | c :: rest =>
    if pat <+: c :: rest then [] else c :: takeBeforePat pat rest

/-- Python `s.replace(old, new)` (all non-overlapping occurrences, left to
    right), by fuel on the scanned suffix length. -/
def replaceChars (old new : List Char) : Nat → List Char → List Char
  | 0, s => s
  | _ + 1, [] => []
  | fuel + 1, c :: rest =>
    if old <+: c :: rest then
      new ++ replaceChars old new fuel ((c :: rest).drop old.length)
    else c :: replaceChars old new fuel rest

/-- Python `s.split("/")` on a character list (empty pieces kept). -/
def splitOnSlash : List Char → List (List Char)
  | [] => [[]]
  | c :: rest =>
    let r := splitOnSlash rest
    if c = '/' then [] :: r else (c :: r.headI) :: r.tail

/-- `_extract_owner_repo` from connectors/github_releases.py. -/
def extractOwnerRepo (url : String) : Option String :=
  let url1 := (rstripSlash url).data
  let url2 :=
    if strContains ⟨url1⟩ "/releases" then takeBeforePat "/releases".data url1
    else url1
  let stripped := replaceChars "https://github.com/".data [] url2.length url2
  let parts := splitOnSlash stripped
  if parts.length ≥ 2 then
    some ⟨parts.getD 0 [] ++ '/' :: parts.getD 1 []⟩
  else none

/-- The per-release item construction of `fetch`. -/
def ghItem (sourceUrl : String) (rel : GhRelease) : FetchedItem :=
  let publishedStr :=
    if rel.publishedAt.getD "" ≠ "" then rel.publishedAt.getD ""
    else rel.createdAt.getD ""
  { externalId := match rel.relId with
      | some n => toString n
      | none => ""
    url := rel.htmlUrl.getD sourceUrl
    title :=
      if rel.relName.getD "" ≠ "" then rel.relName.getD ""
      else rel.tagName.getD ""
    contentText := rel.body.getD ""
    publishedRaw := if publishedStr = "" then none else some publishedStr }

/-- `GitHubReleasesConnector.fetch` from connectors/github_releases.py.

    The `try` block covers only the `http_client.get` call; the subsequent
    `releases = resp.json()` is outside it, so an unparseable body raises
    `json.JSONDecodeError` to the caller. -/
def githubFetch (sourceUrl : String) (outcome : HttpOutcome) :
    PyResult (List FetchedItem) :=
  match extractOwnerRepo sourceUrl with
  | none => .ok []
  | some _ =>
    match outcome with
    | .transportError => .ok []
    | .response status body =>
      if status ≥ 400 then .ok []
      else
        match body with
        | none => .exc "JSONDecodeError"
        | some .other => .ok []
        | some (.releaseList rels) => .ok (rels.map (ghItem sourceUrl))

/-! ## Theorems -/

/-! ### Scoring (claims C2, C10) -/

/-- The trust factor is always one of the four table values or the 0.2
    default, hence within [0, 1]. -/
theorem trustScore_bounds (t : Int) : 0 ≤ trustScore t ∧ trustScore t ≤ 1 := by
  unfold trustScore
  split_ifs <;> norm_num

/-- The severity factor is within [0, 1]. -/
theorem severityScore_bounds (s : String) :
    0 ≤ severityScore s ∧ severityScore s ≤ 1 := by
  unfold severityScore
  split_ifs <;> norm_num

/-- Rounding to four decimals keeps a value of [0, 1] inside [0, 1]. -/
theorem roundTo4_mem (q : ℚ) (h0 : 0 ≤ q) (h1 : q ≤ 1) :
    0 ≤ roundTo4 q ∧ roundTo4 q ≤ 1 := by
  unfold roundTo4
  constructor
  · apply div_nonneg _ (by norm_num)
    have h : (0 : ℤ) ≤ round (q * 10000) := by
      rw [round_eq, Int.le_floor]
      push_cast
      linarith
    exact_mod_cast h
  · rw [div_le_one (by norm_num)]
    have h : round (q * 10000) < (10001 : ℤ) := by
      rw [round_eq, Int.floor_lt]
      push_cast
      linarith
    have h2 : round (q * 10000) ≤ (10000 : ℤ) := by omega
    exact_mod_cast h2

/-- Rounding preserves strict order across a gap wider than one ulp of the
    fourth decimal. -/
theorem roundTo4_strict (a b : ℚ) (h : a + 1 / 10000 < b) :
    roundTo4 a < roundTo4 b := by
  have ha := abs_sub_round (a * 10000)
  have hb := abs_sub_round (b * 10000)
  rw [abs_le] at ha hb
  have key : (round (a * 10000) : ℚ) < (round (b * 10000) : ℚ) := by linarith
  unfold roundTo4
  rw [div_lt_div_iff_of_pos_right (by norm_num)]
  exact key

/-- The clamped, rounded impact score lies in [0, 1] for every trust tier,
    severity string and recency factor in [0, 1]. -/
theorem impactScore_bounds (tier : Int) (sev : String) (r : ℚ) :
    0 ≤ computeImpactScore tier sev r ∧ computeImpactScore tier sev r ≤ 1 := by
  unfold computeImpactScore
  dsimp only
  apply roundTo4_mem
  · simp only [le_min_iff, le_max_iff]
    norm_num
  · simp only [min_le_iff]
    norm_num

/-- Claim C2: for every event (any trust tier, any severity string, any
    recency factor in [0, 1] — the range of `exp(-λ·hours)`), the impact
    score lies in [0.0, 1.0]; and with all other factors equal, a HIGH
    severity, tier-1 event scores strictly higher than a LOW severity,
    tier-4 event. -/
theorem claim_C2 (tier : Int) (sev : String) (r : ℚ) (h0 : 0 ≤ r) (h1 : r ≤ 1) :
    (0 ≤ computeImpactScore tier sev r ∧ computeImpactScore tier sev r ≤ 1)
      ∧ computeImpactScore 4 "LOW" r < computeImpactScore 1 "HIGH" r := by
  refine ⟨impactScore_bounds tier sev r, ?_⟩
  unfold computeImpactScore
  dsimp only
  have ht4 : trustScore 4 = 0.2 := by norm_num [trustScore]
  have ht1 : trustScore 1 = 1.0 := by norm_num [trustScore]
  have hsL : severityScore "LOW" = 0.15 := by
    unfold severityScore
    rw [if_neg (by decide), if_neg (by decide), if_pos rfl]
  have hsH : severityScore "HIGH" = 1.0 := by
    unfold severityScore
    rw [if_pos rfl]
  rw [ht4, ht1, hsL, hsH]
  have e4 : max (0.20 * (0.2 : ℚ) + 0.25 * 0.15 + 0.15 * 0.5 + 0.15 * r
      + 0.10 * (1.0 / 3.0) + 0.10 * 1.0 - 0.05 * 0.0) 0.0
      = 0.20 * 0.2 + 0.25 * 0.15 + 0.15 * 0.5 + 0.15 * r
        + 0.10 * (1.0 / 3.0) + 0.10 * 1.0 - 0.05 * 0.0 :=
    max_eq_left (by linarith)
  have e1 : max (0.20 * (1.0 : ℚ) + 0.25 * 1.0 + 0.15 * 0.5 + 0.15 * r
      + 0.10 * (1.0 / 3.0) + 0.10 * 1.0 - 0.05 * 0.0) 0.0
      = 0.20 * 1.0 + 0.25 * 1.0 + 0.15 * 0.5 + 0.15 * r
        + 0.10 * (1.0 / 3.0) + 0.10 * 1.0 - 0.05 * 0.0 :=
    max_eq_left (by linarith)
  rw [e4, e1, min_eq_left (by linarith), min_eq_left (by linarith)]
  apply roundTo4_strict
  linarith

/-- Witness for C2 at tier 2, severity "MEDIUM", recency 1/2. -/
theorem claim_C2_witness :
    (0 ≤ (1 : ℚ) / 2 ∧ (1 : ℚ) / 2 ≤ 1)
      ∧ (0 ≤ computeImpactScore 2 "MEDIUM" (1 / 2)
          ∧ computeImpactScore 2 "MEDIUM" (1 / 2) ≤ 1)
      ∧ computeImpactScore 4 "LOW" (1 / 2) < computeImpactScore 1 "HIGH" (1 / 2) :=
  ⟨⟨by norm_num, by norm_num⟩,
    (claim_C2 2 "MEDIUM" (1 / 2) (by norm_num) (by norm_num)).1,
    (claim_C2 2 "MEDIUM" (1 / 2) (by norm_num) (by norm_num)).2⟩

/-- Claim C10: scoring is total on out-of-range inputs — any trust tier
    outside 1–4 gets the default trust factor 0.2, any severity string
    other than HIGH/MEDIUM/LOW gets the default severity factor 0.15, and
    the impact score stays within [0, 1] for such events too. -/
theorem claim_C10 :
    (∀ t : Int, t ∉ ([1, 2, 3, 4] : List Int) → trustScore t = 0.2)
      ∧ (∀ s : String, s ∉ (["HIGH", "MEDIUM", "LOW"] : List String) →
          severityScore s = 0.15)
      ∧ (∀ (t : Int) (s : String) (r : ℚ), 0 ≤ r → r ≤ 1 →
          0 ≤ computeImpactScore t s r ∧ computeImpactScore t s r ≤ 1) := by
  refine ⟨?_, ?_, fun t s r h0 h1 => impactScore_bounds t s r⟩
  · intro t ht
    simp only [List.mem_cons, List.not_mem_nil, or_false, not_or] at ht
    unfold trustScore
    rw [if_neg ht.1, if_neg ht.2.1, if_neg ht.2.2.1, if_neg ht.2.2.2]
  · intro s hs
    simp only [List.mem_cons, List.not_mem_nil, or_false, not_or] at hs
    unfold severityScore
    rw [if_neg hs.1, if_neg hs.2.1, if_neg hs.2.2]

/-- Witness for C10 at tier 7, severity "CRITICAL", recency 1/3. -/
theorem claim_C10_witness :
    trustScore 7 = 0.2 ∧ severityScore "CRITICAL" = 0.15
      ∧ (0 ≤ computeImpactScore 7 "CRITICAL" (1 / 3)
          ∧ computeImpactScore 7 "CRITICAL" (1 / 3) ≤ 1) :=
  ⟨claim_C10.1 7 (by decide),
    claim_C10.2.1 "CRITICAL" (by decide),
    claim_C10.2.2 7 "CRITICAL" (1 / 3) (by norm_num) (by norm_num)⟩

/-! ### Severity precedence (claim C3) -/

/-- Claim C3: the always-high category forces HIGH severity regardless of
    every other field, and a set breaking-change flag forces HIGH severity
    regardless of the title. -/
theorem claim_C3 :
    (∀ (cats : List String) (breaking : Bool) (title : String) (tier : Int),
        "New foundation model release" ∈ cats →
          assignSeverity cats breaking title tier = "HIGH")
      ∧ (∀ (cats : List String) (title : String) (tier : Int),
          assignSeverity cats true title tier = "HIGH") := by
  constructor
  · intro cats breaking title tier hmem
    unfold assignSeverity
    have h1 : (1 : Nat) ∈
        ((CATEGORIES.filter (fun p => p.2 ∈ cats)).map (·.1)) := by
      refine List.mem_map.mpr ⟨(1, "New foundation model release"), ?_, rfl⟩
      refine List.mem_filter.mpr ⟨by simp [CATEGORIES], by simpa using hmem⟩
    have hcond : (((CATEGORIES.filter (fun p => p.2 ∈ cats)).map (·.1)).any
        (· ∈ ALWAYS_HIGH_CATEGORIES)) = true := by
      refine List.any_eq_true.mpr ⟨1, h1, ?_⟩
      simp [ALWAYS_HIGH_CATEGORIES]
    simp only [hcond, if_true]
  · intro cats title tier
    unfold assignSeverity
    dsimp only
    split_ifs <;> first | rfl | simp_all

/-- Witness for C3: a breaking-change event with a bland title, and an
    always-high-category event with a bland title, both get HIGH. -/
theorem claim_C3_witness :
    assignSeverity ["New foundation model release"] false "a minor note" 3
        = "HIGH"
      ∧ assignSeverity [] true "a minor note" 3 = "HIGH" :=
  ⟨claim_C3.1 ["New foundation model release"] false "a minor note" 3
      (by decide),
    claim_C3.2 [] "a minor note" 3⟩

/-! ### Noise filter (claim C8) -/

/-- `isNoiseEvent` as one boolean formula (case analysis over the
    if-cascade of `_is_noise_event`). -/
theorem isNoiseEvent_eq (title : String) (tier : Int) :
    isNoiseEvent title tier
      = (strContains (lowerStr title) "stars today"
          || digitsCommasWs (pyStrip title.data)
          || (decide (tier ≥ 4)
              && (decide (normalizeTitle title ∈ NOISE_TITLES)
                  || !isReadableTitle title))) := by
  unfold isNoiseEvent looksLikeStarCount
  dsimp only
  split_ifs <;> simp_all

/-- Claim C8: the digest noise filter excludes every event whose title
    contains "stars today" (case-insensitively) or consists only of
    digits, commas and whitespace, and — exactly for tier-4 events among
    the valid tiers 1–4 — every event whose normalized title is a stopword
    or fails the readability heuristic; the filtered list drops each such
    event, and the concrete spam title "17,167 stars today 13,517" from a
    tier-4 source is classified as noise. -/
theorem claim_C8 :
    (∀ (title : String) (tier : Int), 1 ≤ tier → tier ≤ 4 →
        (isNoiseEvent title tier = true ↔
          (strContains (lowerStr title) "stars today" = true
            ∨ digitsCommasWs (pyStrip title.data) = true
            ∨ (tier = 4 ∧ (normalizeTitle title ∈ NOISE_TITLES
                ∨ isReadableTitle title = false)))))
      ∧ (∀ (events : List (String × Int)) (e : String × Int), e ∈ events →
          isNoiseEvent e.1 e.2 = true → e ∉ noiseFilter events)
      ∧ isNoiseEvent "17,167 stars today 13,517" 4 = true := by
  refine ⟨?_, ?_, ?_⟩
  · intro title tier h1 h4
    rw [isNoiseEvent_eq]
    simp only [Bool.or_eq_true, Bool.and_eq_true, decide_eq_true_eq,
      Bool.not_eq_true']
    have htier : tier ≥ 4 ↔ tier = 4 := by omega
    rw [htier, or_assoc]
  · intro events e hmem hnoise hcontra
    have h := (List.mem_filter.mp hcontra).2
    rw [hnoise] at h
    simp at h
  · decide

/-- Witness for C8: a one-letter title from a tier-4 source fails the
    readability heuristic and is dropped by the filter. -/
theorem claim_C8_witness :
    (("a", (4 : Int)) ∈ [(("a" : String), (4 : Int))])
      ∧ isNoiseEvent "a" 4 = true
      ∧ (1 ≤ (4 : Int) ∧ (4 : Int) ≤ 4)
      ∧ (isNoiseEvent "update" 4 = true ↔
          (strContains (lowerStr "update") "stars today" = true
            ∨ digitsCommasWs (pyStrip "update".data) = true
            ∨ ((4 : Int) = 4 ∧ (normalizeTitle "update" ∈ NOISE_TITLES
                ∨ isReadableTitle "update" = false))))
      ∧ ("a", (4 : Int)) ∉ noiseFilter [("a", 4)] :=
  ⟨by decide, by decide, ⟨by norm_num, by norm_num⟩,
    claim_C8.1 "update" 4 (by norm_num) (by norm_num),
    claim_C8.2.1 [("a", 4)] ("a", 4) (by decide) (by decide)⟩

/-! ### Digest-time duplicate collapse (claim C9) -/

/-- The output of the `_dedupe_events` loop is a subsequence of its
    input. -/
theorem dedupeGo_sublist (l : List DEvent) :
    ∀ seenC seenK, (dedupeGo seenC seenK l).Sublist l := by
  induction l with
  | nil => intro seenC seenK; simp [dedupeGo]
  | cons ev rest ih =>
    intro seenC seenK
    cases hc : ev.clusterId with
    | some c =>
      simp only [dedupeGo, hc]
      split_ifs
      · exact (ih _ _).cons _
      · exact (ih _ _).cons _
      · exact (ih _ _).cons₂ _
    | none =>
      simp only [dedupeGo, hc]
      split_ifs
      · exact (ih _ _).cons _
      · exact (ih _ _).cons₂ _

/-- Every survivor's dedup key is fresh relative to the keys already
    seen when the loop started. -/
theorem dedupeGo_key_not_seen (l : List DEvent) :
    ∀ seenC seenK e, e ∈ dedupeGo seenC seenK l → dedupeKey e ∉ seenK := by
  induction l with
  | nil => intro seenC seenK e he; simp [dedupeGo] at he
  | cons ev rest ih =>
    intro seenC seenK e he
    cases hc : ev.clusterId with
    | some c =>
      simp only [dedupeGo, hc] at he
      split_ifs at he with h1 h2
      · exact ih _ _ e he
      · exact ih _ _ e he
      · rcases List.mem_cons.mp he with rfl | hmem
        · exact h2
        · have := ih _ _ e hmem
          intro hk
          exact this (List.mem_cons_of_mem _ hk)
    | none =>
      simp only [dedupeGo, hc] at he
      split_ifs at he with h1
      · exact ih _ _ e he
      · rcases List.mem_cons.mp he with rfl | hmem
        · exact h1
        · have := ih _ _ e hmem
          intro hk
          exact this (List.mem_cons_of_mem _ hk)

/-- Every survivor's cluster reference is fresh relative to the cluster
    references already seen when the loop started. -/
theorem dedupeGo_cluster_not_seen (l : List DEvent) :
    ∀ seenC seenK e c, e ∈ dedupeGo seenC seenK l → e.clusterId = some c →
      c ∉ seenC := by
  induction l with
  | nil => intro seenC seenK e c he; simp [dedupeGo] at he
  | cons ev rest ih =>
    intro seenC seenK e c he hec
    cases hc : ev.clusterId with
    | some cv =>
      simp only [dedupeGo, hc] at he
      split_ifs at he with h1 h2
      · exact ih _ _ e c he hec
      · exact ih _ _ e c he hec
      · rcases List.mem_cons.mp he with rfl | hmem
        · rw [hc] at hec
          injection hec with hcc
          rw [← hcc]
          exact h1
        · have := ih _ _ e c hmem hec
          intro hk
          exact this (List.mem_cons_of_mem _ hk)
    | none =>
      simp only [dedupeGo, hc] at he
      split_ifs at he with h1
      · exact ih _ _ e c he hec
      · rcases List.mem_cons.mp he with rfl | hmem
        · rw [hc] at hec
          cases hec
        · exact ih _ _ e c hmem hec

/-- The dedup keys of the survivors are pairwise distinct. -/
theorem dedupeGo_keys_nodup (l : List DEvent) :
    ∀ seenC seenK, ((dedupeGo seenC seenK l).map dedupeKey).Nodup := by
  induction l with
  | nil => intro seenC seenK; simp [dedupeGo]
  | cons ev rest ih =>
    intro seenC seenK
    cases hc : ev.clusterId with
    | some c =>
      simp only [dedupeGo, hc]
      split_ifs
      · exact ih _ _
      · exact ih _ _
      · rw [List.map_cons, List.nodup_cons]
        refine ⟨?_, ih _ _⟩
        intro hmem
        rcases List.mem_map.mp hmem with ⟨s, hs, hkey⟩
        exact dedupeGo_key_not_seen rest _ _ s hs (by rw [hkey]; exact List.mem_cons_self _ _)
    | none =>
      simp only [dedupeGo, hc]
      split_ifs
      · exact ih _ _
      · rw [List.map_cons, List.nodup_cons]
        refine ⟨?_, ih _ _⟩
        intro hmem
        rcases List.mem_map.mp hmem with ⟨s, hs, hkey⟩
        exact dedupeGo_key_not_seen rest _ _ s hs (by rw [hkey]; exact List.mem_cons_self _ _)

/-- The cluster references present among the survivors are pairwise
    distinct. -/
theorem dedupeGo_clusters_nodup (l : List DEvent) :
    ∀ seenC seenK, ((dedupeGo seenC seenK l).filterMap (·.clusterId)).Nodup := by
  induction l with
  | nil => intro seenC seenK; simp [dedupeGo]
  | cons ev rest ih =>
    intro seenC seenK
    cases hc : ev.clusterId with
    | some c =>
      simp only [dedupeGo, hc]
      split_ifs
      · exact ih _ _
      · exact ih _ _
      · rw [List.filterMap_cons]
        simp only [hc]
        rw [List.nodup_cons]
        refine ⟨?_, ih _ _⟩
        intro hmem
        rcases List.mem_filterMap.mp hmem with ⟨s, hs, hcl⟩
        exact dedupeGo_cluster_not_seen rest _ _ s c hs hcl
          (List.mem_cons_self _ _)
    | none =>
      simp only [dedupeGo, hc]
      split_ifs
      · exact ih _ _
      · rw [List.filterMap_cons]
        simp only [hc]
        exact ih _ _

/-- A dropped event owes its drop to the starting seen-sets or to an
    earlier survivor with the same cluster reference or dedup key. -/
theorem dedupeGo_dropped (pre : List DEvent) :
    ∀ (e : DEvent) (post : List DEvent) seenC seenK,
      e ∉ dedupeGo seenC seenK (pre ++ e :: post) →
      (∃ c, e.clusterId = some c ∧ c ∈ seenC) ∨ dedupeKey e ∈ seenK
        ∨ ∃ s ∈ pre, s ∈ dedupeGo seenC seenK (pre ++ e :: post) ∧
            ((∃ c, s.clusterId = some c ∧ e.clusterId = some c)
              ∨ dedupeKey s = dedupeKey e) := by
  induction pre with
  | nil =>
    intro e post seenC seenK hdrop
    rw [List.nil_append] at hdrop
    cases hc : e.clusterId with
    | some c =>
      simp only [dedupeGo, hc] at hdrop
      split_ifs at hdrop with h1 h2
      · exact Or.inl ⟨c, rfl, h1⟩
      · exact Or.inr (Or.inl h2)
      · exact absurd (List.mem_cons_self _ _) hdrop
    | none =>
      simp only [dedupeGo, hc] at hdrop
      split_ifs at hdrop with h1
      · exact Or.inr (Or.inl h1)
      · exact absurd (List.mem_cons_self _ _) hdrop
  | cons p pre' ih =>
    intro e post seenC seenK hdrop
    rw [List.cons_append] at hdrop
    cases hp : p.clusterId with
    | some cp =>
      simp only [dedupeGo, hp] at hdrop
      split_ifs at hdrop with h1 h2
      · rcases ih e post seenC seenK hdrop with h | h | ⟨s, hs, hsr, hshare⟩
        · exact Or.inl h
        · exact Or.inr (Or.inl h)
        · refine Or.inr (Or.inr ⟨s, List.mem_cons_of_mem _ hs, ?_, hshare⟩)
          simp only [List.cons_append, dedupeGo, hp]
          rw [if_pos h1]
          exact hsr
      · rcases ih e post seenC seenK hdrop with h | h | ⟨s, hs, hsr, hshare⟩
        · exact Or.inl h
        · exact Or.inr (Or.inl h)
        · refine Or.inr (Or.inr ⟨s, List.mem_cons_of_mem _ hs, ?_, hshare⟩)
          simp only [List.cons_append, dedupeGo, hp]
          rw [if_neg h1, if_pos h2]
          exact hsr
      · have hdrop' : e ∉ dedupeGo (cp :: seenC) (dedupeKey p :: seenK)
            (pre' ++ e :: post) := fun hmem =>
          hdrop (List.mem_cons_of_mem _ hmem)
        have hin : p ∈ dedupeGo seenC seenK ((p :: pre') ++ e :: post) := by
          simp only [List.cons_append, dedupeGo, hp]
          rw [if_neg h1, if_neg h2]
          exact List.mem_cons_self _ _
        rcases ih e post _ _ hdrop' with h | h | ⟨s, hs, hsr, hshare⟩
        · rcases h with ⟨c, hec, hcmem⟩
          rcases List.mem_cons.mp hcmem with rfl | hcmem'
          · exact Or.inr (Or.inr ⟨p, List.mem_cons_self _ _, hin,
              Or.inl ⟨c, hp, hec⟩⟩)
          · exact Or.inl ⟨c, hec, hcmem'⟩
        · rcases List.mem_cons.mp h with hkey | hkmem
          · exact Or.inr (Or.inr ⟨p, List.mem_cons_self _ _, hin,
              Or.inr hkey.symm⟩)
          · exact Or.inr (Or.inl hkmem)
        · refine Or.inr (Or.inr ⟨s, List.mem_cons_of_mem _ hs, ?_, hshare⟩)
          simp only [List.cons_append, dedupeGo, hp]
          rw [if_neg h1, if_neg h2]
          exact List.mem_cons_of_mem _ hsr
    | none =>
      simp only [dedupeGo, hp] at hdrop
      split_ifs at hdrop with h1
      · rcases ih e post seenC seenK hdrop with h | h | ⟨s, hs, hsr, hshare⟩
        · exact Or.inl h
        · exact Or.inr (Or.inl h)
        · refine Or.inr (Or.inr ⟨s, List.mem_cons_of_mem _ hs, ?_, hshare⟩)
          simp only [List.cons_append, dedupeGo, hp]
          rw [if_pos h1]
          exact hsr
      · have hdrop' : e ∉ dedupeGo seenC (dedupeKey p :: seenK)
            (pre' ++ e :: post) := fun hmem =>
          hdrop (List.mem_cons_of_mem _ hmem)
        have hin : p ∈ dedupeGo seenC seenK ((p :: pre') ++ e :: post) := by
          simp only [List.cons_append, dedupeGo, hp]
          rw [if_neg h1]
          exact List.mem_cons_self _ _
        rcases ih e post _ _ hdrop' with h | h | ⟨s, hs, hsr, hshare⟩
        · exact Or.inl h
        · rcases List.mem_cons.mp h with hkey | hkmem
          · exact Or.inr (Or.inr ⟨p, List.mem_cons_self _ _, hin,
              Or.inr hkey.symm⟩)
          · exact Or.inr (Or.inl hkmem)
        · refine Or.inr (Or.inr ⟨s, List.mem_cons_of_mem _ hs, ?_, hshare⟩)
          simp only [List.cons_append, dedupeGo, hp]
          rw [if_neg h1]
          exact List.mem_cons_of_mem _ hsr

/-- Claim C9: `_dedupe_events` returns an order-preserving subsequence of
    its input in which no two survivors share a cluster reference, no two
    survivors share the (slug, product line, normalized title) key, and
    every dropped event shares a cluster reference or that key with an
    earlier survivor — first occurrence wins. -/
theorem claim_C9 (events : List DEvent) :
    (dedupeEvents events).Sublist events
      ∧ ((dedupeEvents events).filterMap (·.clusterId)).Nodup
      ∧ ((dedupeEvents events).map dedupeKey).Nodup
      ∧ ∀ (pre : List DEvent) (e : DEvent) (post : List DEvent),
          events = pre ++ e :: post → e ∉ dedupeEvents events →
          ∃ s ∈ pre, s ∈ dedupeEvents events ∧
            ((∃ c, s.clusterId = some c ∧ e.clusterId = some c)
              ∨ dedupeKey s = dedupeKey e) := by
  refine ⟨dedupeGo_sublist events [] [],
    dedupeGo_clusters_nodup events [] [],
    dedupeGo_keys_nodup events [] [], ?_⟩
  intro pre e post hsplit hdrop
  rw [hsplit] at hdrop ⊢
  rcases dedupeGo_dropped pre e post [] [] hdrop with h | h | h
  · rcases h with ⟨c, _, hc⟩
    cases hc
  · cases h
  · exact h

/-- Witness for C9: the second of two events with the same normalized
    dedup key is dropped in favour of the first. -/
theorem claim_C9_witness :
    ([⟨none, some "acme", some "api", some "Rate limits"⟩]
        ++ (⟨none, some "ACME", some "API", some " rate   limits "⟩ : DEvent)
        :: [] =
      [(⟨none, some "acme", some "api", some "Rate limits"⟩ : DEvent),
        ⟨none, some "ACME", some "API", some " rate   limits "⟩])
      ∧ (⟨none, some "ACME", some "API", some " rate   limits "⟩ : DEvent) ∉
          dedupeEvents
            [⟨none, some "acme", some "api", some "Rate limits"⟩,
              ⟨none, some "ACME", some "API", some " rate   limits "⟩]
      ∧ ∃ s ∈ [(⟨none, some "acme", some "api", some "Rate limits"⟩ : DEvent)],
          s ∈ dedupeEvents
              [⟨none, some "acme", some "api", some "Rate limits"⟩,
                ⟨none, some "ACME", some "API", some " rate   limits "⟩] ∧
            ((∃ c, s.clusterId = some c ∧
                (⟨none, some "ACME", some "API", some " rate   limits "⟩ :
                  DEvent).clusterId = some c)
              ∨ dedupeKey s =
                  dedupeKey ⟨none, some "ACME", some "API", some " rate   limits "⟩) :=
  ⟨rfl, by decide,
    (claim_C9
      [⟨none, some "acme", some "api", some "Rate limits"⟩,
        ⟨none, some "ACME", some "API", some " rate   limits "⟩]).2.2.2
      [⟨none, some "acme", some "api", some "Rate limits"⟩]
      ⟨none, some "ACME", some "API", some " rate   limits "⟩ [] rfl (by decide)⟩

/-! ### GitHub connector failure semantics (claim C7) -/

/-- Claim C7, evaluated on the code: transport errors and error statuses
    are swallowed (empty list, no exception), but a 200 response whose
    body is not parseable JSON makes `fetch` raise `json.JSONDecodeError`
    to its caller — `releases = resp.json()` sits outside the `try` block
    that guards only `http_client.get`.  This contradicts the claim (and
    §4.1/§7 of the specification), which require every fetch outcome to
    produce a list and never raise. -/
theorem claim_C7 :
    githubFetch "https://github.com/openai/openai-python"
        (.response 200 none) = .exc "JSONDecodeError"
      ∧ (∀ url : String, githubFetch url .transportError = .ok [])
      ∧ githubFetch "https://github.com/openai/openai-python"
          (.response 404 (some .other)) = .ok []
      ∧ githubFetch "https://github.com/openai/openai-python"
          (.response 200 (some .other)) = .ok [] := by
  refine ⟨by rfl, ?_, by rfl, by rfl⟩
  intro url
  unfold githubFetch
  cases h : extractOwnerRepo url <;> simp

/-! ### Section allocation (claim C1) -/

/-- One routing step never pushes a section past its quota. -/
theorem route_quotas (s : AllocState) (e : AEvent) (h : quotasOK s) :
    quotasOK (route s e) := by
  obtain ⟨h1, h2, h3, h4, h5⟩ := h
  unfold route
  split_ifs with g1 g2 g3 g4 g5 <;>
    (unfold quotasOK
     try dsimp only
     try simp only [Bool.and_eq_true, decide_eq_true_eq] at *
     try simp only [List.length_append, List.length_cons, List.length_nil]
     omega)

/-- One routing step either leaves the state unchanged, or appends the
    event to exactly one section and records its id. -/
theorem route_spec (s : AllocState) (e : AEvent) :
    route s e = s
      ∨ ((route s e).bag.Perm (s.bag ++ [e])
          ∧ (route s e).assigned = s.assigned ++ [e.eventId]) := by
  unfold route
  split_ifs <;>
    first
      | exact Or.inl rfl
      | (refine Or.inr ⟨?_, rfl⟩
         unfold AllocState.bag
         dsimp only
         refine List.perm_iff_count.mpr fun a => ?_
         simp only [List.count_append]
         omega)

/-- A routing step extends the assigned-id list. -/
theorem route_assigned_grows (s : AllocState) (e : AEvent) :
    s.assigned <+: (route s e).assigned := by
  unfold route
  split_ifs <;> first | exact List.prefix_rfl | exact List.prefix_append _ _

/-- The whole routing loop extends the assigned-id list. -/
theorem foldl_assigned_grows (l : List AEvent) :
    ∀ s : AllocState, s.assigned <+: (l.foldl route s).assigned := by
  induction l with
  | nil => intro s; exact List.prefix_rfl
  | cons e rest ih =>
    intro s
    exact (route_assigned_grows s e).trans (ih (route s e))

/-- One routing step adds no id other than the event's. -/
theorem route_assigned_mem (s : AllocState) (e : AEvent) :
    ∀ x ∈ (route s e).assigned, x ∈ s.assigned ∨ x = e.eventId := by
  intro x hx
  rcases route_spec s e with h | ⟨_, h⟩
  · rw [h] at hx; exact Or.inl hx
  · rw [h] at hx
    rcases List.mem_append.mp hx with h' | h'
    · exact Or.inl h'
    · exact Or.inr (List.mem_singleton.mp h')

/-- The routing loop adds no id outside the processed events. -/
theorem foldl_assigned_mem (l : List AEvent) :
    ∀ (s : AllocState), ∀ x ∈ (l.foldl route s).assigned,
      x ∈ s.assigned ∨ x ∈ l.map (·.eventId) := by
  induction l with
  | nil => intro s x hx; exact Or.inl hx
  | cons e rest ih =>
    intro s x hx
    rcases ih (route s e) x hx with h | h
    · rcases route_assigned_mem s e x h with h' | h'
      · exact Or.inl h'
      · exact Or.inr (by simp [h'])
    · exact Or.inr (List.mem_map.mp h |>.elim fun a ⟨ha, hae⟩ =>
        List.mem_map.mpr ⟨a, List.mem_cons_of_mem _ ha, hae⟩)

/-- The quota-bounded sections after the routing loop hold, up to order,
    exactly the processed events whose ids were recorded. -/
theorem foldl_bag (l : List AEvent) :
    ∀ s : AllocState, (l.map (·.eventId)).Nodup →
      (∀ x ∈ l, x.eventId ∉ s.assigned) →
      (l.foldl route s).bag.Perm
        (s.bag ++ l.filter (fun e =>
          decide (e.eventId ∈ (l.foldl route s).assigned))) := by
  induction l with
  | nil => intro s _ _; simp
  | cons e rest ih =>
    intro s hnd hfresh
    rw [List.foldl_cons]
    have hndr : (rest.map (·.eventId)).Nodup := (List.nodup_cons.mp hnd).2
    have heid : e.eventId ∉ rest.map (·.eventId) := (List.nodup_cons.mp hnd).1
    rcases route_spec s e with hkeep | ⟨hbag, hassign⟩
    · rw [hkeep]
      have hfresh' : ∀ x ∈ rest, x.eventId ∉ s.assigned := fun x hx =>
        hfresh x (List.mem_cons_of_mem _ hx)
      have hedrop : e.eventId ∉ (rest.foldl route s).assigned := by
        intro hmem
        rcases foldl_assigned_mem rest s e.eventId hmem with h | h
        · exact hfresh e (List.mem_cons_self _ _) h
        · exact heid h
      rw [List.filter_cons_of_neg (by simpa using hedrop)]
      exact ih s hndr hfresh'
    · have hfresh' : ∀ x ∈ rest, x.eventId ∉ (route s e).assigned := by
        intro x hx hmem
        rcases route_assigned_mem s e x.eventId hmem with h | h
        · exact hfresh x (List.mem_cons_of_mem _ hx) h
        · exact heid (h ▸ List.mem_map.mpr ⟨x, hx, rfl⟩)
      have hein : e.eventId ∈ (rest.foldl route (route s e)).assigned := by
        apply (foldl_assigned_grows rest (route s e)).subset
        rw [hassign]
        simp
      rw [List.filter_cons_of_pos (by simpa using hein)]
      refine ((ih (route s e) hndr hfresh').trans ?_)
      have := hbag.append_right
        (rest.filter (fun x =>
          decide (x.eventId ∈ (rest.foldl route (route s e)).assigned)))
      refine this.trans ?_
      simp [List.append_assoc]

/-- With pairwise-distinct event ids, filtering out the ids of the first
    five events is exactly dropping them. -/
theorem filter_not_take_eq_drop (events : List AEvent)
    (hnd : (events.map (·.eventId)).Nodup) :
    events.filter (fun e =>
        decide (e.eventId ∉ (events.take QUOTA_TOP5).map (·.eventId)))
      = events.drop QUOTA_TOP5 := by
  set t := (events.take QUOTA_TOP5).map (·.eventId) with ht
  have hsplit := List.take_append_drop QUOTA_TOP5 events
  have hmapsplit : events.map (·.eventId)
      = t ++ (events.drop QUOTA_TOP5).map (·.eventId) := by
    rw [ht, ← List.map_append, hsplit]
  rw [hmapsplit, List.nodup_append] at hnd
  conv_lhs => rw [← hsplit]
  rw [List.filter_append]
  have h1 : (events.take QUOTA_TOP5).filter
      (fun e => decide (e.eventId ∉ t)) = [] := by
    rw [List.filter_eq_nil_iff]
    intro a ha
    simp only [decide_eq_true_eq, not_not]
    exact List.mem_map.mpr ⟨a, ha, rfl⟩
  have h2 : (events.drop QUOTA_TOP5).filter
      (fun e => decide (e.eventId ∉ t)) = events.drop QUOTA_TOP5 := by
    rw [List.filter_eq_self]
    intro a ha
    simp only [decide_eq_true_eq]
    intro hmem
    exact hnd.2.2 hmem (List.mem_map.mpr ⟨a, ha, rfl⟩)
  rw [h1, h2, List.nil_append]

/-- The routing loop preserves the quota invariant. -/
theorem foldl_quotas (l : List AEvent) :
    ∀ s : AllocState, quotasOK s → quotasOK (l.foldl route s) := by
  induction l with
  | nil => intro s h; exact h
  | cons e rest ih => intro s h; exact ih (route s e) (route_quotas s e h)

/-- Claim C1: on a score-sorted event list with pairwise-distinct event
    ids, `allocate_sections` puts exactly the first `min(5, N)` events
    into top5 (top5 *is* the `min(5, N)`-element prefix of the input),
    never exceeds any quota-bounded section's quota (developer 8, models
    8, pricing 5, incidents 5, radar 3), places every event in exactly one
    of the seven sections, and the section sizes sum to N. -/
theorem claim_C1 (events : List AEvent)
    (hnd : (events.map (·.eventId)).Nodup)
    (hsorted : events.Pairwise (fun a b => b.impactScore ≤ a.impactScore)) :
    (allocateSections events).top5 = events.take QUOTA_TOP5
      ∧ (allocateSections events).top5.length = min QUOTA_TOP5 events.length
      ∧ (allocateSections events).developer.length ≤ QUOTA_DEVELOPER
      ∧ (allocateSections events).models.length ≤ QUOTA_MODELS
      ∧ (allocateSections events).pricing.length ≤ QUOTA_PRICING
      ∧ (allocateSections events).incidents.length ≤ QUOTA_INCIDENTS
      ∧ (allocateSections events).radar.length ≤ QUOTA_RADAR
      ∧ (∀ e ∈ events,
          (allocateSections events).top5.count e
            + (allocateSections events).developer.count e
            + (allocateSections events).models.count e
            + (allocateSections events).pricing.count e
            + (allocateSections events).incidents.count e
            + (allocateSections events).radar.count e
            + (allocateSections events).everythingElse.count e = 1)
      ∧ (allocateSections events).top5.length
          + (allocateSections events).developer.length
          + (allocateSections events).models.length
          + (allocateSections events).pricing.length
          + (allocateSections events).incidents.length
          + (allocateSections events).radar.length
          + (allocateSections events).everythingElse.length
          = events.length := by
  by_cases hemp : events.isEmpty
  · have he : events = [] := List.isEmpty_iff.mp hemp
    subst he
    simp [allocateSections]
  · have hform : allocateSections events
        = ⟨events.take QUOTA_TOP5,
            ((events.filter (fun e => decide (e.eventId ∉
              (events.take QUOTA_TOP5).map (·.eventId)))).foldl route
              ⟨[], [], [], [], [],
                (events.take QUOTA_TOP5).map (·.eventId)⟩).developer,
            ((events.filter (fun e => decide (e.eventId ∉
              (events.take QUOTA_TOP5).map (·.eventId)))).foldl route
              ⟨[], [], [], [], [],
                (events.take QUOTA_TOP5).map (·.eventId)⟩).models,
            ((events.filter (fun e => decide (e.eventId ∉
              (events.take QUOTA_TOP5).map (·.eventId)))).foldl route
              ⟨[], [], [], [], [],
                (events.take QUOTA_TOP5).map (·.eventId)⟩).pricing,
            ((events.filter (fun e => decide (e.eventId ∉
              (events.take QUOTA_TOP5).map (·.eventId)))).foldl route
              ⟨[], [], [], [], [],
                (events.take QUOTA_TOP5).map (·.eventId)⟩).incidents,
            ((events.filter (fun e => decide (e.eventId ∉
              (events.take QUOTA_TOP5).map (·.eventId)))).foldl route
              ⟨[], [], [], [], [],
                (events.take QUOTA_TOP5).map (·.eventId)⟩).radar,
            events.filter (fun e => decide (e.eventId ∉
              ((events.filter (fun e => decide (e.eventId ∉
                (events.take QUOTA_TOP5).map (·.eventId)))).foldl route
                ⟨[], [], [], [], [],
                  (events.take QUOTA_TOP5).map (·.eventId)⟩).assigned))⟩ := by
      unfold allocateSections
      rw [if_neg hemp]
    set assigned0 := (events.take QUOTA_TOP5).map (·.eventId) with hassigned0
    set remaining := events.filter
      (fun e => decide (e.eventId ∉ assigned0)) with hremaining
    set init : AllocState := ⟨[], [], [], [], [], assigned0⟩ with hinit
    set st := remaining.foldl route init with hst
    -- the filtered remainder is exactly the events after the first five
    have hdrop : remaining = events.drop QUOTA_TOP5 :=
      filter_not_take_eq_drop events hnd
    -- ids of the remainder are fresh relative to the initial assigned set
    have hfresh : ∀ x ∈ remaining, x.eventId ∉ init.assigned := by
      intro x hx
      have := (List.mem_filter.mp hx).2
      simpa using this
    have hndr : (remaining.map (·.eventId)).Nodup := by
      rw [hdrop, List.map_drop]
      exact hnd.sublist (List.drop_sublist _ _)
    -- the quota bounds
    have hq : quotasOK st :=
      foldl_quotas remaining init ⟨by simp [hinit, QUOTA_DEVELOPER],
        by simp [hinit, QUOTA_MODELS], by simp [hinit, QUOTA_PRICING],
        by simp [hinit, QUOTA_INCIDENTS], by simp [hinit, QUOTA_RADAR]⟩
    -- the routed sections hold exactly the remainder events whose id was
    -- recorded, up to order
    have hbag : st.bag.Perm
        (remaining.filter (fun e => decide (e.eventId ∈ st.assigned))) := by
      have h := foldl_bag remaining init hndr hfresh
      rw [← hst] at h
      simpa [hinit, AllocState.bag] using h
    -- the first five events are all recorded
    have htop5in : ∀ e ∈ events.take QUOTA_TOP5, e.eventId ∈ st.assigned := by
      intro e he
      apply (foldl_assigned_grows remaining init).subset
      show e.eventId ∈ assigned0
      exact List.mem_map.mpr ⟨e, he, rfl⟩
    -- everything_else is the unrecorded part of the remainder
    have hee : events.filter (fun e => decide (e.eventId ∉ st.assigned))
        = remaining.filter (fun e => decide (e.eventId ∉ st.assigned)) := by
      conv_lhs => rw [← List.take_append_drop QUOTA_TOP5 events]
      rw [List.filter_append]
      have h1 : (events.take QUOTA_TOP5).filter
          (fun e => decide (e.eventId ∉ st.assigned)) = [] := by
        rw [List.filter_eq_nil_iff]
        intro a ha
        simp only [decide_eq_true_eq, not_not]
        simpa using htop5in a ha
      rw [h1, List.nil_append, hdrop]
    -- the grand permutation: the seven sections partition the input
    have hgrand : (events.take QUOTA_TOP5 ++ (st.bag
        ++ events.filter (fun e => decide (e.eventId ∉ st.assigned)))).Perm
        events := by
      rw [hee]
      refine ((hbag.append_right _).append_left _).trans ?_
      have hsplit : (remaining.filter (fun e =>
            decide (e.eventId ∈ st.assigned))
          ++ remaining.filter (fun e =>
            decide (e.eventId ∉ st.assigned))).Perm remaining := by
        have h := List.filter_append_perm
          (fun e => decide (e.eventId ∈ st.assigned)) remaining
        simpa [decide_not] using h
      refine (hsplit.append_left _).trans ?_
      rw [hdrop, List.take_append_drop]
    rw [hform]
    dsimp only
    refine ⟨rfl, by rw [List.length_take], hq.1, hq.2.1, hq.2.2.1,
      hq.2.2.2.1, hq.2.2.2.2, ?_, ?_⟩
    · intro e he
      have hv : events.Nodup := List.Nodup.of_map _ hnd
      have hc : events.count e = 1 := List.count_eq_one_of_mem hv he
      have := hgrand.count_eq e
      rw [hc] at this
      simp only [List.count_append] at this
      unfold AllocState.bag at this
      simp only [List.count_append] at this
      omega
    · have := hgrand.length_eq
      simp only [List.length_append] at this
      unfold AllocState.bag at this
      simp only [List.length_append] at this
      omega

/-- Witness for C1 on a concrete sorted 8-event batch with distinct
    ids. -/
theorem claim_C1_witness :
    (((List.range 8).map (fun i =>
        (⟨i, 2, ["SDK releases/updates"], 1 - (i : ℚ) / 10⟩ : AEvent))).map
          (·.eventId)).Nodup
      ∧ ((List.range 8).map (fun i =>
          (⟨i, 2, ["SDK releases/updates"], 1 - (i : ℚ) / 10⟩ : AEvent))).Pairwise
            (fun a b => b.impactScore ≤ a.impactScore)
      ∧ (allocateSections ((List.range 8).map (fun i =>
          (⟨i, 2, ["SDK releases/updates"], 1 - (i : ℚ) / 10⟩ : AEvent)))).top5
          = ((List.range 8).map (fun i =>
              (⟨i, 2, ["SDK releases/updates"], 1 - (i : ℚ) / 10⟩ : AEvent))).take
              QUOTA_TOP5
      ∧ (allocateSections ((List.range 8).map (fun i =>
          (⟨i, 2, ["SDK releases/updates"], 1 - (i : ℚ) / 10⟩ : AEvent)))).top5.length
          = min QUOTA_TOP5 ((List.range 8).map (fun i =>
              (⟨i, 2, ["SDK releases/updates"], 1 - (i : ℚ) / 10⟩ : AEvent))).length
      ∧ (allocateSections ((List.range 8).map (fun i =>
          (⟨i, 2, ["SDK releases/updates"], 1 - (i : ℚ) / 10⟩ : AEvent)))).top5.length
          + (allocateSections ((List.range 8).map (fun i =>
              (⟨i, 2, ["SDK releases/updates"], 1 - (i : ℚ) / 10⟩ : AEvent)))).developer.length
          + (allocateSections ((List.range 8).map (fun i =>
              (⟨i, 2, ["SDK releases/updates"], 1 - (i : ℚ) / 10⟩ : AEvent)))).models.length
          + (allocateSections ((List.range 8).map (fun i =>
              (⟨i, 2, ["SDK releases/updates"], 1 - (i : ℚ) / 10⟩ : AEvent)))).pricing.length
          + (allocateSections ((List.range 8).map (fun i =>
              (⟨i, 2, ["SDK releases/updates"], 1 - (i : ℚ) / 10⟩ : AEvent)))).incidents.length
          + (allocateSections ((List.range 8).map (fun i =>
              (⟨i, 2, ["SDK releases/updates"], 1 - (i : ℚ) / 10⟩ : AEvent)))).radar.length
          + (allocateSections ((List.range 8).map (fun i =>
              (⟨i, 2, ["SDK releases/updates"], 1 - (i : ℚ) / 10⟩ : AEvent)))).everythingElse.length
          = ((List.range 8).map (fun i =>
              (⟨i, 2, ["SDK releases/updates"], 1 - (i : ℚ) / 10⟩ : AEvent))).length := by
  have hnd : (((List.range 8).map (fun i =>
      (⟨i, 2, ["SDK releases/updates"], 1 - (i : ℚ) / 10⟩ : AEvent))).map
        (·.eventId)).Nodup := by
    simp [List.map_map, Function.comp]
    exact List.nodup_range 8
  have hsorted : ((List.range 8).map (fun i =>
      (⟨i, 2, ["SDK releases/updates"], 1 - (i : ℚ) / 10⟩ : AEvent))).Pairwise
        (fun a b => b.impactScore ≤ a.impactScore) := by
    rw [List.pairwise_map]
    refine (List.pairwise_lt_range 8).imp ?_
    intro a b hab
    dsimp only
    have hc : ((a : ℚ)) ≤ (b : ℚ) := by exact_mod_cast hab.le
    linarith
  have h := claim_C1 _ hnd hsorted
  exact ⟨hnd, hsorted, h.1, h.2.1, h.2.2.2.2.2.2.2.2⟩

/-! ### SequenceMatcher ratio (claims C4, C5) -/

/-- A common prefix is no longer than the first list. -/
theorem matchLen_le_left : ∀ a b : List Char, matchLen a b ≤ a.length := by
  intro a
  induction a with
  | nil => intro b; cases b <;> simp [matchLen]
  | cons x xs ih =>
    intro b
    cases b with
    | nil => simp [matchLen]
    | cons y ys =>
      simp only [matchLen, List.length_cons]
      split_ifs
      · exact Nat.succ_le_succ (ih ys)
      · omega

/-- A common prefix is no longer than the second list. -/
theorem matchLen_le_right : ∀ a b : List Char, matchLen a b ≤ b.length := by
  intro a
  induction a with
  | nil => intro b; cases b <;> simp [matchLen]
  | cons x xs ih =>
    intro b
    cases b with
    | nil => simp [matchLen]
    | cons y ys =>
      simp only [matchLen, List.length_cons]
      split_ifs
      · exact Nat.succ_le_succ (ih ys)
      · omega

/-- A list is its own longest common prefix. -/
theorem matchLen_self : ∀ a : List Char, matchLen a a = a.length := by
  intro a
  induction a with
  | nil => simp [matchLen]
  | cons x xs ih => simp [matchLen, ih]

/-- The fold over candidate blocks returns the start block or one of the
    candidates. -/
theorem foldl_pickBest_mem (l : List MatchBlock) :
    ∀ init : MatchBlock, l.foldl pickBest init = init ∨ l.foldl pickBest init ∈ l := by
  induction l with
  | nil => intro init; exact Or.inl rfl
  | cons c rest ih =>
    intro init
    rw [List.foldl_cons]
    rcases ih (pickBest init c) with h | h
    · rw [h]
      unfold pickBest
      split_ifs
      · exact Or.inr (List.mem_cons_self _ _)
      · exact Or.inl rfl
    · exact Or.inr (List.mem_cons_of_mem _ h)

/-- The fold never decreases the incumbent's size. -/
theorem foldl_pickBest_ge_init (l : List MatchBlock) :
    ∀ init : MatchBlock, init.size ≤ (l.foldl pickBest init).size := by
  induction l with
  | nil => intro init; exact le_rfl
  | cons c rest ih =>
    intro init
    rw [List.foldl_cons]
    refine le_trans ?_ (ih (pickBest init c))
    unfold pickBest
    split_ifs with h
    · omega
    · exact le_rfl

/-- The fold's result is at least as large as every candidate. -/
theorem foldl_pickBest_ge (l : List MatchBlock) :
    ∀ (init : MatchBlock), ∀ c ∈ l, c.size ≤ (l.foldl pickBest init).size := by
  induction l with
  | nil => intro init c hc; cases hc
  | cons d rest ih =>
    intro init c hc
    rw [List.foldl_cons]
    rcases List.mem_cons.mp hc with rfl | hc'
    · refine le_trans ?_ (foldl_pickBest_ge_init rest (pickBest init c))
      unfold pickBest
      split_ifs with h
      · exact le_rfl
      · omega
    · exact ih (pickBest init d) c hc'

/-- Shape of a candidate block: its size is the run length at its start
    position, and the start lies inside both lists. -/
theorem blockCands_mem (a b : List Char) (m : MatchBlock)
    (hm : m ∈ blockCands a b) :
    m.size = matchLen (a.drop m.i) (b.drop m.j)
      ∧ m.i < a.length ∧ m.j < b.length := by
  unfold blockCands at hm
  rcases List.mem_flatMap.mp hm with ⟨i, hi, hmap⟩
  rcases List.mem_map.mp hmap with ⟨j, hj, hval⟩
  rw [← hval]
  exact ⟨rfl, List.mem_range.mp hi, List.mem_range.mp hj⟩

/-- The reported longest match fits inside both lists. -/
theorem findLongestMatch_bounds (a b : List Char) :
    (findLongestMatch a b).i + (findLongestMatch a b).size ≤ a.length
      ∧ (findLongestMatch a b).j + (findLongestMatch a b).size ≤ b.length := by
  unfold findLongestMatch
  rcases foldl_pickBest_mem (blockCands a b) ⟨0, 0, 0⟩ with h | h
  · rw [h]; simp
  · rcases blockCands_mem a b _ h with ⟨hsize, hi, hj⟩
    constructor
    · have h1 := matchLen_le_left (a.drop (((blockCands a b).foldl pickBest ⟨0, 0, 0⟩).i))
        (b.drop (((blockCands a b).foldl pickBest ⟨0, 0, 0⟩).j))
      rw [List.length_drop] at h1
      omega
    · have h1 := matchLen_le_right (a.drop (((blockCands a b).foldl pickBest ⟨0, 0, 0⟩).i))
        (b.drop (((blockCands a b).foldl pickBest ⟨0, 0, 0⟩).j))
      rw [List.length_drop] at h1
      omega

/-- The total match size never exceeds the first list's length. -/
theorem matchTotalGo_le_left : ∀ (f : Nat) (a b : List Char),
    matchTotalGo f a b ≤ a.length := by
  intro f
  induction f with
  | zero => intro a b; simp [matchTotalGo]
  | succ g ih =>
    intro a b
    rw [matchTotalGo]
    try dsimp only
    split_ifs with h
    · omega
    · have hb := findLongestMatch_bounds a b
      have h1 := ih (a.take (findLongestMatch a b).i) (b.take (findLongestMatch a b).j)
      have h2 := ih (a.drop ((findLongestMatch a b).i + (findLongestMatch a b).size))
        (b.drop ((findLongestMatch a b).j + (findLongestMatch a b).size))
      rw [List.length_take] at h1
      rw [List.length_drop] at h2
      omega

/-- The total match size never exceeds the second list's length. -/
theorem matchTotalGo_le_right : ∀ (f : Nat) (a b : List Char),
    matchTotalGo f a b ≤ b.length := by
  intro f
  induction f with
  | zero => intro a b; simp [matchTotalGo]
  | succ g ih =>
    intro a b
    rw [matchTotalGo]
    try dsimp only
    split_ifs with h
    · omega
    · have hb := findLongestMatch_bounds a b
      have h1 := ih (a.take (findLongestMatch a b).i) (b.take (findLongestMatch a b).j)
      have h2 := ih (a.drop ((findLongestMatch a b).i + (findLongestMatch a b).size))
        (b.drop ((findLongestMatch a b).j + (findLongestMatch a b).size))
      rw [List.length_take] at h1
      rw [List.length_drop] at h2
      omega

/-- On two empty-or-left-empty inputs the total match is zero. -/
theorem matchTotalGo_nil (f : Nat) (b : List Char) : matchTotalGo f [] b = 0 := by
  have := matchTotalGo_le_left f [] b
  simpa using this

/-- On identical inputs the longest match is the whole list. -/
theorem findLongestMatch_self (a : List Char) (hne : a ≠ []) :
    findLongestMatch a a = ⟨0, 0, a.length⟩ := by
  have hlen : 0 < a.length := List.length_pos.mpr hne
  have hcand : (⟨0, 0, a.length⟩ : MatchBlock) ∈ blockCands a a := by
    unfold blockCands
    refine List.mem_flatMap.mpr ⟨0, List.mem_range.mpr hlen, ?_⟩
    refine List.mem_map.mpr ⟨0, List.mem_range.mpr hlen, ?_⟩
    rw [List.drop_zero, matchLen_self]
  have hge := foldl_pickBest_ge (blockCands a a) ⟨0, 0, 0⟩ _ hcand
  unfold findLongestMatch
  rcases foldl_pickBest_mem (blockCands a a) ⟨0, 0, 0⟩ with h | h
  · exfalso
    rw [h] at hge
    have hle0 : a.length ≤ 0 := hge
    omega
  · rcases blockCands_mem a a _ h with ⟨hsize, hi, hj⟩
    have hge2 : a.length ≤ ((blockCands a a).foldl pickBest ⟨0, 0, 0⟩).size := by
      simpa using hge
    have hle1 := matchLen_le_left (a.drop (((blockCands a a).foldl pickBest ⟨0, 0, 0⟩).i))
      (a.drop (((blockCands a a).foldl pickBest ⟨0, 0, 0⟩).j))
    rw [List.length_drop] at hle1
    have hie : ((blockCands a a).foldl pickBest ⟨0, 0, 0⟩).i = 0 := by omega
    have hse : ((blockCands a a).foldl pickBest ⟨0, 0, 0⟩).size = a.length := by omega
    have hle2 := matchLen_le_right (a.drop (((blockCands a a).foldl pickBest ⟨0, 0, 0⟩).i))
      (a.drop (((blockCands a a).foldl pickBest ⟨0, 0, 0⟩).j))
    rw [List.length_drop] at hle2
    have hje : ((blockCands a a).foldl pickBest ⟨0, 0, 0⟩).j = 0 := by omega
    cases hfl : (blockCands a a).foldl pickBest ⟨0, 0, 0⟩ with
    | mk i j size =>
      rw [hfl] at hie hje hse
      simp only at hie hje hse
      rw [hie, hje, hse]

/-- On identical inputs every character is matched. -/
theorem matchTotal_self (a : List Char) : matchTotal a a = a.length := by
  by_cases hne : a = []
  · subst hne
    exact matchTotalGo_nil _ []
  · have hlen : 0 < a.length := List.length_pos.mpr hne
    unfold matchTotal
    rw [matchTotalGo]
    try dsimp only
    rw [findLongestMatch_self a hne]
    try dsimp only
    rw [if_neg (show ¬(a.length = 0) by omega)]
    rw [List.take_zero, Nat.zero_add, List.drop_length]
    rw [matchTotalGo_nil]
    omega

/-- The ratio is within [0, 1]. -/
theorem smRatio_bounds (a b : List Char) : 0 ≤ smRatio a b ∧ smRatio a b ≤ 1 := by
  unfold smRatio
  split_ifs with h
  · norm_num
  · have hM1 := matchTotalGo_le_left (a.length + 1) a b
    have hM2 := matchTotalGo_le_right (a.length + 1) a b
    have hT : (0 : ℚ) < ((a.length + b.length : Nat) : ℚ) := by
      have : 0 < a.length + b.length := Nat.pos_of_ne_zero h
      exact_mod_cast this
    constructor
    · positivity
    · rw [div_le_one hT]
      have : (2 * matchTotal a b : Nat) ≤ (a.length + b.length : Nat) := by
        unfold matchTotal
        omega
      calc 2 * ((matchTotal a b : Nat) : ℚ) = ((2 * matchTotal a b : Nat) : ℚ) := by
            push_cast; ring
        _ ≤ ((a.length + b.length : Nat) : ℚ) := by exact_mod_cast this

/-- On identical non-empty inputs the ratio is exactly 1. -/
theorem smRatio_self (a : List Char) (hne : a ≠ []) : smRatio a a = 1 := by
  unfold smRatio
  have hlen : 0 < a.length := List.length_pos.mpr hne
  rw [if_neg (by omega), matchTotal_self]
  have : ((a.length + a.length : Nat) : ℚ) = 2 * (a.length : ℚ) := by
    push_cast; ring
  rw [this]
  have hq : (a.length : ℚ) ≠ 0 := by exact_mod_cast Nat.pos_iff_ne_zero.mp hlen
  field_simp

/-- The title similarity is within [0, 1]. -/
theorem titleSimilarity_bounds (a b : String) :
    0 ≤ titleSimilarity a b ∧ titleSimilarity a b ≤ 1 := by
  unfold titleSimilarity
  try dsimp only
  split_ifs with h
  · norm_num
  · exact smRatio_bounds _ _

/-- Similarity against the empty title is zero. -/
theorem titleSimilarity_empty_left (x : String) : titleSimilarity "" x = 0 := by
  unfold titleSimilarity
  dsimp only
  have h : (pyStripStr (lowerStr "")).data.isEmpty = true := rfl
  rw [h]
  norm_num

/-- A title with non-blank content has similarity exactly 1 with
    itself. -/
theorem titleSimilarity_self (a : String) (h : pyStripStr (lowerStr a) ≠ "") :
    titleSimilarity a a = 1 := by
  unfold titleSimilarity
  dsimp only
  have hd : (pyStripStr (lowerStr a)).data ≠ [] := by
    intro hdata
    exact h (String.ext (by rw [hdata]))
  have hie : ¬((pyStripStr (lowerStr a)).data.isEmpty = true) := by
    simpa [List.isEmpty_iff] using hd
  rw [Bool.or_self]
  rw [if_neg hie]
  exact smRatio_self _ hd

/-- Every cluster the greedy pass emits consists of a seed followed by
    members whose titles are ≥-threshold similar to the seed's title. -/
theorem clusterGo_shape (titles : List String) :
    ∀ (idxs assigned : List Nat), ∀ g ∈ clusterGo titles idxs assigned,
      ∃ i gs, g = i :: gs ∧ ∀ j ∈ gs,
        SIMILARITY_THRESHOLD ≤
          titleSimilarity (titles.getD i "") (titles.getD j "") := by
  intro idxs
  induction idxs with
  | nil => intro assigned g hg; simp [clusterGo] at hg
  | cons i rest ih =>
    intro assigned g hg
    rw [clusterGo] at hg
    dsimp only at hg
    split_ifs at hg with h1 h2
    · exact ih assigned g hg
    · rcases List.mem_cons.mp hg with rfl | hg'
      · refine ⟨i, _, rfl, ?_⟩
        intro j hj
        have hp := (List.mem_filter.mp hj).2
        simp only [Bool.and_eq_true, decide_eq_true_eq] at hp
        exact hp.2
      · exact ih _ g hg'
    · exact ih _ g hg

set_option maxRecDepth 16000 in
/-- Counterexample to both conjuncts of claim C4 as stated.

    First conjunct (similarity ≥ 0.85 forces a shared cluster reference):
    with the titles "aaaaaaa", "aaaaaab", "aaaaabb" (pairwise difflib
    ratios 6/7, 5/7, 6/7), events 1 and 2 have similarity 6/7 ≥ 0.85, yet
    event 1 is captured by event 0's cluster while event 2 (similarity
    5/7 < 0.85 to event 0) remains unclustered.

    Second conjunct (similarity < 0.5 excludes a shared cluster
    reference): with the titles "abcdefgtabcdefg", "abcdefgtaxcdefg",
    "abcdewgtabcdefg", the seed matches each of the other two at ratio
    14/15 ≥ 0.85 (its duplicated halves align with each), so all three
    share one cluster; but between events 1 and 2 the longest-match
    recursion can only align event 1's intact first half with event 2's
    intact second half, discarding everything else, for a ratio of
    7/15 < 0.5 in both argument orders (values confirmed against CPython
    difflib). -/
theorem claim_C4_cex :
    (SIMILARITY_THRESHOLD ≤ titleSimilarity "aaaaaab" "aaaaabb"
        ∧ clusterRef ["aaaaaaa", "aaaaaab", "aaaaabb"] 1 = some 0
        ∧ clusterRef ["aaaaaaa", "aaaaaab", "aaaaabb"] 2 = none)
      ∧ (clusterRef
            ["abcdefgtabcdefg", "abcdefgtaxcdefg", "abcdewgtabcdefg"] 1
            = some 0
          ∧ clusterRef
              ["abcdefgtabcdefg", "abcdefgtaxcdefg", "abcdewgtabcdefg"] 2
              = some 0
          ∧ titleSimilarity "abcdefgtaxcdefg" "abcdewgtabcdefg" < 0.5
          ∧ titleSimilarity "abcdewgtabcdefg" "abcdefgtaxcdefg" < 0.5) := by
  refine ⟨⟨?_, ?_, ?_⟩, ?_, ?_, ?_, ?_⟩ <;> with_unfolding_all decide

/-- Claim C4 as amended: after `soft_dedupe_and_cluster`, an event carries
    a cluster reference only for a cluster whose seed's title has
    similarity ≥ 0.85 to its own, and an event whose title has similarity
    ≥ 0.85 with the *first* event's title is always placed in the first
    event's cluster.  Both universal conjuncts of the original claim are
    false (see the counterexample): two events that are mutually ≥ 0.85
    similar can end up with different cluster references when an earlier
    seed captures only one of them, and two members of one cluster can
    have mutual similarity < 0.5 when each matches the seed through a
    different part of the seed's title; only the similarity bound against
    the cluster's seed survives. -/
theorem claim_C4 :
    (∀ (titles : List String) (i j : Nat), clusterRef titles j = some i →
        i = j ∨ SIMILARITY_THRESHOLD ≤
          titleSimilarity (titles.getD i "") (titles.getD j ""))
      ∧ (∀ (titles : List String) (j : Nat), 0 < j → j < titles.length →
          SIMILARITY_THRESHOLD ≤
            titleSimilarity (titles.getD 0 "") (titles.getD j "") →
          clusterRef titles 0 = some 0 ∧ clusterRef titles j = some 0) := by
  constructor
  · intro titles i j href
    unfold clusterRef at href
    cases hf : (clusterGroups titles).find? (fun g => g.contains j) with
    | none => rw [hf] at href; cases href
    | some g =>
      rw [hf] at href
      simp only [Option.map_some'] at href
      have hg : g ∈ clusterGroups titles := List.mem_of_find?_eq_some hf
      have hj : j ∈ g := by
        have hpj := List.find?_some hf
        simpa using hpj
      obtain ⟨s, gs, rfl, hsim⟩ := clusterGo_shape titles _ _ g hg
      have hhead : s = i := by
        simpa [List.headI] using Option.some.inj href
      rcases List.mem_cons.mp hj with rfl | hj'
      · exact Or.inl hhead.symm
      · exact Or.inr (hhead ▸ hsim j hj')
  · intro titles j hj0 hjlen hsim
    obtain ⟨m, hm⟩ : ∃ m, titles.length = m + 1 :=
      ⟨titles.length - 1, by omega⟩
    have hrange : List.range titles.length
        = 0 :: (List.range m).map Nat.succ := by
      rw [hm, List.range_succ_eq_map]
    have hgath : j ∈ ((List.range m).map Nat.succ).filter (fun k =>
        decide (k ∉ ([] : List Nat)) && decide (SIMILARITY_THRESHOLD ≤
          titleSimilarity (titles.getD 0 "") (titles.getD k ""))) := by
      refine List.mem_filter.mpr ⟨?_, ?_⟩
      · refine List.mem_map.mpr ⟨j - 1, List.mem_range.mpr (by omega), by omega⟩
      · simp only [Bool.and_eq_true, decide_eq_true_eq]
        exact ⟨List.not_mem_nil j, hsim⟩
    have hgroups : clusterGroups titles
        = (0 :: ((List.range m).map Nat.succ).filter (fun k =>
            decide (k ∉ ([] : List Nat)) && decide (SIMILARITY_THRESHOLD ≤
              titleSimilarity (titles.getD 0 "") (titles.getD k ""))))
          :: clusterGo titles ((List.range m).map Nat.succ)
            ([] ++ 0 :: ((List.range m).map Nat.succ).filter (fun k =>
              decide (k ∉ ([] : List Nat)) && decide (SIMILARITY_THRESHOLD ≤
                titleSimilarity (titles.getD 0 "") (titles.getD k "")))) := by
      unfold clusterGroups
      rw [hrange, clusterGo]
      rw [if_neg (List.not_mem_nil 0)]
      rw [if_pos]
      have : 0 < (((List.range m).map Nat.succ).filter (fun k =>
          decide (k ∉ ([] : List Nat)) && decide (SIMILARITY_THRESHOLD ≤
            titleSimilarity (titles.getD 0 "") (titles.getD k "")))).length :=
        List.length_pos.mpr (fun hnil => by rw [hnil] at hgath; cases hgath)
      simp only [List.length_cons]
      omega
    constructor
    · unfold clusterRef
      rw [hgroups, List.find?_cons_of_pos _ (by simp)]
      rfl
    · unfold clusterRef
      rw [hgroups, List.find?_cons_of_pos _ (by
        simp only [List.contains_cons]
        refine Bool.or_eq_true_iff.mpr (Or.inr ?_)
        exact List.elem_eq_true_of_mem hgath)]
      rfl

set_option maxRecDepth 8000 in
/-- Witness for the amended C4 on a concrete pair of similar titles. -/
theorem claim_C4_witness :
    (0 < 1 ∧ 1 < (["aaaaaaa", "aaaaaab"] : List String).length
        ∧ SIMILARITY_THRESHOLD ≤
            titleSimilarity ((["aaaaaaa", "aaaaaab"] : List String).getD 0 "")
              ((["aaaaaaa", "aaaaaab"] : List String).getD 1 ""))
      ∧ clusterRef ["aaaaaaa", "aaaaaab"] 0 = some 0
      ∧ clusterRef ["aaaaaaa", "aaaaaab"] 1 = some 0 := by
  have h1 : (0 : Nat) < 1 := by omega
  have h2 : 1 < (["aaaaaaa", "aaaaaab"] : List String).length := by
    simp
  have h3 : SIMILARITY_THRESHOLD ≤
      titleSimilarity ((["aaaaaaa", "aaaaaab"] : List String).getD 0 "")
        ((["aaaaaaa", "aaaaaab"] : List String).getD 1 "") := by
    with_unfolding_all decide
  have h := claim_C4.2 ["aaaaaaa", "aaaaaab"] 1 h1 h2 h3
  exact ⟨⟨h1, h2, h3⟩, h.1, h.2⟩

set_option maxRecDepth 8000 in
/-- Counterexample to claim C5 as stated: the similarity of the empty
    title with itself is 0, not 1 (the guard in `_title_similarity`
    returns 0.0 when either stripped title is empty), and difflib's ratio
    is not symmetric — on "uppxqqm" vs "wqqympp" it gives 2/7 one way and
    3/7 the other (the longest-match tie is broken by position in the
    first argument, so block selection differs between the two
    orders). -/
theorem claim_C5_cex :
    ¬(titleSimilarity "" "" = 1)
      ∧ ¬(titleSimilarity "uppxqqm" "wqqympp"
            = titleSimilarity "wqqympp" "uppxqqm") := by
  constructor <;> with_unfolding_all decide

/-- Claim C5 as amended: the title-similarity is always within [0, 1];
    `similarity("", x) = 0` for every `x` (including `x = ""`, so
    `similarity(a, a) = 1` fails at blank titles); and `similarity(a, a)
    = 1` holds for every title with non-blank content.  The symmetry
    conjunct of the original claim is false and is dropped. -/
theorem claim_C5 :
    (∀ a b : String, 0 ≤ titleSimilarity a b ∧ titleSimilarity a b ≤ 1)
      ∧ (∀ x : String, titleSimilarity "" x = 0)
      ∧ (∀ a : String, pyStripStr (lowerStr a) ≠ "" →
          titleSimilarity a a = 1) :=
  ⟨titleSimilarity_bounds, titleSimilarity_empty_left, titleSimilarity_self⟩

set_option maxRecDepth 8000 in
/-- Witness for the amended C5 at a concrete non-blank title. -/
theorem claim_C5_witness :
    pyStripStr (lowerStr "OpenAI launches GPT") ≠ ""
      ∧ titleSimilarity "OpenAI launches GPT" "OpenAI launches GPT" = 1 :=
  ⟨by decide, claim_C5.2.2 "OpenAI launches GPT" (by decide)⟩

/-! ### Content hash (claim C6) -/

/-- Counterexample to claim C6 as stated: with url "u" and title "t",
    changing the content text from "" to "t" does not change the hash —
    Python's `or` treats the present-but-empty body as absent, so both
    hash `"u" + "t"`; in particular, with an empty body present the hash
    is not the SHA-256 of url ++ body. -/
theorem claim_C6_cex :
    (some "" ≠ some "t")
      ∧ contentHash "u" (some "") (some "t")
          = contentHash "u" (some "t") (some "t")
      ∧ contentHashPayload "u" (some "") (some "t") ≠ "u" ++ "" := by
  refine ⟨by decide, by decide, by decide⟩

/-- Claim C6 as amended: the content hash is the hex SHA-256 of the UTF-8
    bytes of url ++ (body if *non-empty*, else title if non-empty, else
    "") — a pure function of (url, content_text, title).  Changing the
    url alone always changes the hashed payload; changing a non-empty
    body to a different non-empty body changes the hashed payload; the
    SHA-256 embedding reproduces the standard "abc" test vector; and the
    test-vector inputs that differ in url or text produce different
    hashes.  (Changing the text between absent/empty and the title's own
    value does not change the hash — see the counterexample.) -/
theorem claim_C6 :
    (∀ (url₁ url₂ : String) (t ti : Option String), url₁ ≠ url₂ →
        contentHashPayload url₁ t ti ≠ contentHashPayload url₂ t ti)
      ∧ (∀ (url : String) (t₁ t₂ : String) (ti : Option String),
          t₁ ≠ "" → t₂ ≠ "" → t₁ ≠ t₂ →
          contentHashPayload url (some t₁) ti
            ≠ contentHashPayload url (some t₂) ti)
      ∧ sha256Hex (utf8Bytes "abc")
          = "ba7816bf8f01cfea414140de5dae2223b00361a396177a9cb410ff61f20015ad"
      ∧ contentHash "u" (some "x") (some "t")
          ≠ contentHash "u" (some "t") (some "t")
      ∧ contentHash "u2" (some "t") (some "t")
          ≠ contentHash "u" (some "t") (some "t") := by
  refine ⟨?_, ?_, by decide, by decide, by decide⟩
  · intro url₁ url₂ t ti hne h
    apply hne
    have hd := congrArg String.data h
    simp only [contentHashPayload, String.data_append] at hd
    exact String.ext (List.append_cancel_right hd)
  · intro url t₁ t₂ ti h1 h2 hne h
    apply hne
    have hd := congrArg String.data h
    simp only [contentHashPayload, bestText, Option.getD_some] at hd
    rw [if_pos h1, if_pos h2] at hd
    simp only [String.data_append] at hd
    exact String.ext (List.append_cancel_left hd)

/-- Witness for the amended C6 at concrete distinct inputs. -/
theorem claim_C6_witness :
    (("u" : String) ≠ "v"
        ∧ contentHashPayload "u" (some "t") (some "t")
            ≠ contentHashPayload "v" (some "t") (some "t"))
      ∧ (("x" : String) ≠ "" ∧ ("y" : String) ≠ "" ∧ ("x" : String) ≠ "y"
        ∧ contentHashPayload "u" (some "x") (some "t")
            ≠ contentHashPayload "u" (some "y") (some "t")) :=
  ⟨⟨by decide, claim_C6.1 "u" "v" (some "t") (some "t") (by decide)⟩,
    ⟨by decide, by decide, by decide,
      claim_C6.2.1 "u" "x" "y" (some "t") (by decide) (by decide) (by decide)⟩⟩

end AINews
